import Mathlib

/-!
Verification of the sta-utils warp-speed conversion module and journal
backlinks graph maintainer.

The warp module is modelled over the real numbers (JavaScript numbers are
idealized as exact reals; the value `Infinity` is modelled by `⊤` in
`EReal`).  The backlinks module is modelled as a pure state-transition
system over a list of documents carrying the two flag collections
(`references` and `referencedBy`) that the code maintains.
-/

namespace Warp

/-- Canonical TNG warp speed lookup table for warp 9+ (`TNG_SPEED_TABLE`
in the source).  Rows are `(warpFactor, speedInC)` pairs; the decimal
literals are exact rationals. -/
def TNG_SPEED_TABLE : List (ℚ × ℚ) :=
  [(9.0, 1516.38),
   (9.1, 1575.51),
   (9.2, 1640.63),
   (9.3, 1713.31),
   (9.4, 1796.0),
   (9.5, 1894.85),
   (9.6, 2017.93),
   (9.7, 2185.45),
   (9.8, 2450.01),
   (9.9, 3029.26),
   (9.91, 3136.69),
   (9.92, 3264.3),
   (9.93, 3419.44),
   (9.94, 3613.71),
   (9.95, 3866.92),
   (9.96, 4216.18),
   (9.97, 4741.59),
   (9.98, 5660.62),
   (9.99, 7912.0)]

/-- The bracketing loop of `findSpeedAbove9`: walk adjacent pairs of table
rows; on the first pair `(w1,s1),(w2,s2)` with `w1 ≤ w ≤ w2` return the
linear interpolation `s1 + (w - w1)/(w2 - w1) * (s2 - s1)`; `none` means
the loop fell through without finding a bracket. -/
noncomputable def interpSegments : List (ℚ × ℚ) → ℝ → Option ℝ
  | (w1, s1) :: (w2, s2) :: rest, w =>
    if (w1 : ℝ) ≤ w ∧ w ≤ (w2 : ℝ) then
      some ((s1 : ℝ) + (w - (w1 : ℝ)) / ((w2 : ℝ) - (w1 : ℝ)) * ((s2 : ℝ) - (s1 : ℝ)))
    else interpSegments ((w2, s2) :: rest) w
  | _, _ => none

/-- Model of `findSpeedAbove9`: interpolate within the table, and if the
loop finds no bracketing pair (input above 9.99), extrapolate from the
last two table rows. -/
noncomputable def findSpeedAbove9 (w : ℝ) : ℝ :=
  match interpSegments TNG_SPEED_TABLE w with
  | some s => s
  | none =>
    let p1 := TNG_SPEED_TABLE.getD (TNG_SPEED_TABLE.length - 2) (0, 0)
    let p2 := TNG_SPEED_TABLE.getD (TNG_SPEED_TABLE.length - 1) (0, 0)
    (p1.2 : ℝ) + (w - (p1.1 : ℝ)) / ((p2.1 : ℝ) - (p1.1 : ℝ)) * ((p2.2 : ℝ) - (p1.2 : ℝ))

/-- Finite part of `warpToSpeedMultiplier` (every branch except the
`warpFactor >= 10 → Infinity` one, which is unreachable on the solver's
clamped domain): sublight passthrough below 1, the TNG power law
`w ^ (10/3)` on `[1, 9]`, and the interpolation table above 9. -/
noncomputable def warpToSpeedF (w : ℝ) : ℝ :=
  if w < 1 then w
  else if w ≤ 9 then w ^ ((10 : ℝ) / 3)
  else findSpeedAbove9 w

/-- Model of `warpToSpeedMultiplier`, with `Infinity` (returned for
`warpFactor >= 10`) modelled as `⊤ : EReal`. -/
noncomputable def warpToSpeedMultiplier (w : ℝ) : EReal :=
  if w < 1 then (w : EReal)
  else if 10 ≤ w then ⊤
  else (warpToSpeedF w : EReal)

/-- The Newton-Raphson iteration of `speedMultiplierToWarp`: at most the
given fuel many iterations (the source caps at 50).  Each iteration
evaluates the residual, tests the `1e-9` tolerance, probes a numerical
derivative with step `1e-8`, breaks when the derivative magnitude falls
below `1e-15`, and clamps the next candidate into `[1, 9.999]`.  Every
exit returns the last estimate clamped into `[1, 9.99]`. -/
noncomputable def newtonLoop (target : ℝ) : Nat → ℝ → ℝ
  | 0, w => min (max w 1) 9.99
  | n + 1, w =>
    let fw := warpToSpeedF w - target
    if |fw| < 1e-9 then min (max w 1) 9.99
    else
      let step := (1e-8 : ℝ)
      let fwh := warpToSpeedF (w + step) - target
      let derivative := (fwh - fw) / step
      if |derivative| < 1e-15 then min (max w 1) 9.99
      else
        let w2 := w - fw / derivative
        let w3 := if w2 < 1 then 1 else w2
        let w4 := if w3 > 9.999 then 9.999 else w3
        newtonLoop target n w4

/-- Model of `speedMultiplierToWarp`.  Input is an `EReal` (so that the
`!isFinite` branch, which returns warp 10 for `Infinity`, is modelled);
the `null` sentinel is `none`.  Non-positive speeds give `none`, sublight
speeds are returned unchanged, and otherwise the Newton-Raphson solver is
run from the closed-form initial guess `target ^ (3/10)` (re-seeded to
9.5 when that guess exceeds 9.99). -/
noncomputable def speedMultiplierToWarp (s : EReal) : Option ℝ :=
  if s ≤ 0 then none
  else if s < 1 then some s.toReal
  else if s = ⊤ then some 10
  else
    let target := s.toReal
    let guess := target ^ ((3 : ℝ) / 10)
    let w0 := if guess > 9.99 then (9.5 : ℝ) else guess
    some (newtonLoop target 50 w0)

/-- The constant `LIGHT_YEARS_PER_DAY_AT_C` from the source. -/
noncomputable def LIGHT_YEARS_PER_DAY_AT_C : ℝ := 299792.458 * 86400 / 9.461e12

/-- Model of `calculateDistance` (TNG): speed times light-years-per-day
times elapsed days, in `EReal` because the speed can be `Infinity`. -/
noncomputable def calculateDistance (warpFactor timeDays : ℝ) : EReal :=
  let speedC := warpToSpeedMultiplier warpFactor
  let lyPerDay := speedC * (LIGHT_YEARS_PER_DAY_AT_C : EReal)
  lyPerDay * (timeDays : EReal)

/-- Model of `calculateTime` (TNG): returns `Infinity` (modelled `⊤`)
when the per-day speed is non-positive, else distance divided by per-day
speed. -/
noncomputable def calculateTime (warpFactor distanceLY : ℝ) : EReal :=
  let speedC := warpToSpeedMultiplier warpFactor
  let lyPerDay := speedC * (LIGHT_YEARS_PER_DAY_AT_C : EReal)
  if lyPerDay ≤ 0 then ⊤ else (distanceLY : EReal) / lyPerDay

/-- Model of `calculateWarpFactor` (TNG): non-positive elapsed time gives
the `null` sentinel, otherwise the implied speed multiplier is fed to the
inverse conversion. -/
noncomputable def calculateWarpFactor (distanceLY timeDays : ℝ) : Option ℝ :=
  if timeDays ≤ 0 then none
  else
    let lyPerDay := distanceLY / timeDays
    let speedC := lyPerDay / LIGHT_YEARS_PER_DAY_AT_C
    speedMultiplierToWarp (speedC : EReal)

end Warp

namespace JB

/-- A document of the host world, with the two derived flag collections
maintained by `JournalBacklinks` (`references`: outgoing reference list;
`referencedBy`: incoming references grouped by source document kind,
modelled as an association list from kind to source UUID list) together
with its identity, kind and the raw content string that `_getContent`
returns for it. -/
structure Doc where
  uuid : String
  dtype : String
  content : String
  references : List String
  referencedBy : List (String × List String)
deriving DecidableEq

/-- The world document store, in the enumeration order of
`_getAllDocuments`. -/
abbrev Store := List Doc

/-- Model of `fromUuidSync`: resolve a UUID to a document, `none` when the
target no longer exists. -/
def lookup (s : Store) (u : String) : Option Doc :=
  List.find? (fun d => d.uuid = u) s

/-- The outgoing `references` flag stored on the document with the given
UUID (empty when the document is absent or carries no flag, matching the
code's `|| []` default). -/
def refsOf (s : Store) (u : String) : List String :=
  (lookup s u).elim [] Doc.references

/-- The `referencedBy` flag stored on the document with the given UUID
(empty when absent, matching the code's `|| {}` default). -/
def refByOf (s : Store) (u : String) : List (String × List String) :=
  (lookup s u).elim [] Doc.referencedBy

/-- Read the per-kind bucket `links[entityType]` of a `referencedBy` map
(`|| []` default). -/
def getBucket (links : List (String × List String)) (ty : String) : List String :=
  ((List.find? (fun p => p.1 = ty) links).elim [] Prod.snd)

/-- Whether `links` has an entry for the given kind. -/
def hasBucket (links : List (String × List String)) (ty : String) : Bool :=
  links.any (fun p => p.1 = ty)

/-- The per-kind bucket of the `referencedBy` flag of the document with
the given UUID. -/
def bucketOf (s : Store) (u ty : String) : List String :=
  getBucket (refByOf s u) ty

/-- Write `links[entityType] = v` into a `referencedBy` map (replace the
existing entry, or append a new one). -/
def setBucket (links : List (String × List String)) (ty : String) (v : List String) :
    List (String × List String) :=
  if hasBucket links ty then links.map (fun p => if p.1 = ty then (ty, v) else p)
  else links ++ [(ty, v)]

/-- Model of `delete links[entityType]` (together with the Foundry
`-=entityType: null` deletion marker the code writes, which instructs the
host database to drop the key). -/
def delBucket (links : List (String × List String)) (ty : String) :
    List (String × List String) :=
  links.filter (fun p => ¬p.1 = ty)

/-- Model of `referenced.setFlag(scope, "referencedBy", links)`: replace
the `referencedBy` flag of every document with the given UUID. -/
def setRefBy (s : Store) (u : String) (links : List (String × List String)) : Store :=
  List.map (fun d => if d.uuid = u then { d with referencedBy := links } else d) s

/-- Model of `entity.setFlag(scope, "references", refs)` (and of
`unsetFlag` with `refs = []`). -/
def setRefs (s : Store) (u : String) (refs : List String) : Store :=
  List.map (fun d => if d.uuid = u then { d with references := refs } else d) s

/-- A `\w` character of the link-marker regular expression
`@(\w+)\[([^\]]+)\]`. -/
def isWordChar (c : Char) : Bool := c.isAlphanum || c = '_'

/-- Scanner for the link-marker regular expression `@(\w+)\[([^\]]+)\]`:
from each `@` read a non-empty maximal word, a literal `[`, a non-empty
run of non-`]` characters and a closing `]`; on failure resume scanning
at the character after the `@` (like the regex engine, which can never
skip an `@` this way because `@` is not a word character).  The fuel
argument only serves structural termination; each call consumes at least
one character, so `fuel = length` never runs out. -/
def scanRefsAux : Nat → List Char → List (String × String)
  | 0, _ => []
  | _, [] => []
  | fuel + 1, c :: rest =>
    if c = '@' then
      let word := rest.takeWhile isWordChar
      let afterWord := rest.dropWhile isWordChar
      if word.isEmpty then scanRefsAux fuel rest
      else
        match afterWord with
        | '[' :: afterBracket =>
          let inner := afterBracket.takeWhile (fun ch => ¬ch = ']')
          let afterInner := afterBracket.dropWhile (fun ch => ¬ch = ']')
          match afterInner with
          | ']' :: tail =>
            if inner.isEmpty then scanRefsAux fuel rest
            else (word.asString, inner.asString) :: scanRefsAux fuel tail
          | _ => scanRefsAux fuel rest
        | _ => scanRefsAux fuel rest
    else scanRefsAux fuel rest

/-- Extract the raw `(linkType, target)` matches of the link-marker
regular expression from a content string. -/
def scanRefs (l : List Char) : List (String × String) :=
  scanRefsAux l.length l

/-- Model of `JournalBacklinks.references`: each match maps to its target
verbatim when the marker type is `UUID`, otherwise to
`linkType ++ "." ++ target`. -/
def references (text : String) : List String :=
  (scanRefs text.toList).map (fun m => if m.1 = "UUID" then m.2 else m.1 ++ "." ++ m.2)

/-- Split a character list on `.` separators, like `String.split(".")` in
JavaScript (written over `List Char` so that it reduces in the kernel). -/
def splitOnDotAux : List Char → List Char → List String
  | [], acc => [acc.reverse.asString]
  | c :: rest, acc =>
    if c = '.' then acc.reverse.asString :: splitOnDotAux rest []
    else splitOnDotAux rest (c :: acc)

/-- The segments of a UUID string (split on `.`). -/
def splitOnDot (u : String) : List String := splitOnDotAux u.toList []

/-- The JavaScript `parts.slice(0, 2).join(".")` applied to a segment
list. -/
def joinTwo : List String → String
  | [] => ""
  | [a] => a
  | a :: b :: _ => a ++ "." ++ b

/-- The per-reference UUID reconstruction at the top of the add loop of
`JournalBacklinks.update`: a relative reference (starting with `.`) is
qualified by the first two segments of the updating entity's UUID
(`entity.uuid.split(".").slice(0,2).join(".")`) and the entity's kind. -/
def resolveRef (entityUuid entityType reference : String) : String :=
  match reference.toList with
  | '.' :: _ => joinTwo (splitOnDot entityUuid) ++ "." ++ entityType ++ reference
  | _ => reference

/-- The fully-resolved reference list extracted by `update` from a
document's content (before de-duplication). -/
def resolvedRefs (entityUuid entityType content : String) : List String :=
  (references content).map (resolveRef entityUuid entityType)

/-- One step of the de-duplicating accumulation of the `updated` list in
`JournalBacklinks.update`. -/
def dedupStep (up : List String) (r : String) : List String :=
  if r ∈ up then up else up ++ [r]

/-- One iteration of the add loop of `JournalBacklinks.update`: resolve
the reference, skip duplicates, record it in `updated`, and unless it was
already in the previously stored outgoing set, append the updating
entity's UUID to the resolved target's per-kind incoming bucket (skipping
unresolvable targets and targets that already list the entity). -/
def addStep (entityUuid entityType : String) (existing : List String)
    (acc : Store × List String) (ref0 : String) : Store × List String :=
  let s := acc.1
  let updated := acc.2
  let reference := resolveRef entityUuid entityType ref0
  if reference ∈ updated then acc
  else
    let updated2 := updated ++ [reference]
    if reference ∈ existing then (s, updated2)
    else
      match lookup s reference with
      | none => (s, updated2)
      | some referenced =>
        let links := referenced.referencedBy
        let linksOfType := getBucket links entityType
        if entityUuid ∈ linksOfType then (s, updated2)
        else
          (setRefBy s reference (setBucket links entityType (linksOfType ++ [entityUuid])),
           updated2)

/-- One iteration of the removal loop of `JournalBacklinks.update`: for a
previously stored reference that disappeared, remove the updating
entity's UUID from the target's per-kind incoming bucket (first
occurrence, like `splice` at `indexOf`), deleting the bucket when it
becomes empty; unresolvable targets and buckets not listing the entity
are skipped. -/
def removeStep (entityUuid entityType : String) (s : Store) (outdated : String) : Store :=
  match lookup s outdated with
  | none => s
  | some target =>
    let links := target.referencedBy
    let linksOfType := getBucket links entityType
    if entityUuid ∈ linksOfType then
      let pruned := linksOfType.erase entityUuid
      if pruned.isEmpty then setRefBy s outdated (delBucket links entityType)
      else setRefBy s outdated (setBucket links entityType pruned)
    else s

/-- Model of `JournalBacklinks.update`: gated on `force` and the
`rebuildOnSave` setting, extract and resolve the new outgoing reference
set, run the add loop, remove the references that disappeared, and
persist the de-duplicated outgoing set on the entity. -/
def update (rebuildOnSave : Bool) (s : Store) (entityUuid entityType content : String)
    (force : Bool) : Store :=
  if force = false ∧ rebuildOnSave = false then s
  else
    let refs := references content
    let existing := refsOf s entityUuid
    let afterAdd := refs.foldl (addStep entityUuid entityType existing) (s, [])
    let updated := afterAdd.2
    let outdatedList := existing.filter (fun v => ¬v ∈ updated)
    let afterRemove := outdatedList.foldl (removeStep entityUuid entityType) afterAdd.1
    setRefs afterRemove entityUuid updated

/-- Phase 2 body of `JournalBacklinks.sync` for one document: wipe its
outgoing `references` flag, then (when it has content) run the
incremental update unconditionally (`force = true`). -/
def syncStep (rebuildOnSave : Bool) (acc : Store) (du : String × String) : Store :=
  let wiped := setRefs acc du.1 []
  let content := (lookup wiped du.1).elim "" Doc.content
  if content = "" then wiped
  else update rebuildOnSave wiped du.1 du.2 content true

/-- Model of `JournalBacklinks.sync`: wipe every document's incoming
`referencedBy` flag, then rebuild by running the (forced) incremental
update over every document in enumeration order. -/
def sync (rebuildOnSave : Bool) (s : Store) : Store :=
  let wipedRefBy := List.map (fun d => { d with referencedBy := [] }) s
  (List.map (fun d => (d.uuid, d.dtype)) s).foldl (syncStep rebuildOnSave) wipedRefBy

/-- The de-duplicated outgoing reference list that one run of `update`
persists for a document with the given content: the `updated` list of the
add loop. -/
def newRefs (entityUuid entityType content : String) : List String :=
  List.foldl dedupStep [] (resolvedRefs entityUuid entityType content)

/-- Identity-and-content projection of a document (everything `sync`
never modifies). -/
def essence (d : Doc) : String × String × String :=
  (d.uuid, d.dtype, d.content)

/-- Projection of a document to everything except its outgoing
`references` flag; used to relate runs of the rebuild that differ only in
dead outgoing-flag values. -/
def obs (d : Doc) : String × String × String × List (String × List String) :=
  (d.uuid, d.dtype, d.content, d.referencedBy)

/-- The UUID enumeration of a store. -/
def uuids (s : Store) : List String := s.map Doc.uuid

/-- The content string of the document with the given UUID. -/
def contentOf (s : Store) (u : String) : String :=
  (lookup s u).elim "" Doc.content

/-- No `referencedBy` bucket anywhere in the store mentions `X` as a
source. -/
def Avoid (X : String) (s : Store) : Prop :=
  ∀ d ∈ s, ∀ ty, X ∉ getBucket d.referencedBy ty

/-- Positional agreement of the outgoing `references` flags of two stores
on the documents whose UUID lies in `P`. -/
def RefsAgree (P : List String) (sx sy : Store) : Prop :=
  ∀ (i : Nat) (dx dy : Doc), sx[i]? = some dx → sy[i]? = some dy → dx.uuid ∈ P →
    dx.references = dy.references

/-- Rendering of one per-kind bucket in
`JournalBacklinks.includeLinksFromRefs`, projected to the `(type, uuid)`
data of the emitted link elements: falsy (empty) UUIDs and unresolvable
targets are skipped, a `false` answer from the permission predicate skips
the entry, and — since the source has no exception handler — an exception
raised by the permission predicate propagates (`Except.error`). -/
def renderBucket (s : Store) (perm : String → Except String Bool) (ty : String) :
    List String → Except String (List (String × String))
  | [] => .ok []
  | v :: vs =>
    if v = "" then renderBucket s perm ty vs
    else
      match lookup s v with
      | none => renderBucket s perm ty vs
      | some _ =>
        match perm v with
        | .error e => .error e
        | .ok false => renderBucket s perm ty vs
        | .ok true => do
          let rest ← renderBucket s perm ty vs
          .ok ((ty, v) :: rest)

/-- Model of the rendering loop of `JournalBacklinks.includeLinksFromRefs`
over a merged `referencedBy` map, projected to the `(type, uuid)` list of
emitted links, with exception propagation from the permission
predicate. -/
def renderLinks (s : Store) (perm : String → Except String Bool) :
    List (String × List String) → Except String (List (String × String))
  | [] => .ok []
  | (ty, vs) :: rest => do
    let first ← renderBucket s perm ty vs
    let more ← renderLinks s perm rest
    .ok (first ++ more)

end JB

namespace JB

theorem lookup_map_pres (g : Doc → Doc) (hg : ∀ d, (g d).uuid = d.uuid) (s : Store)
    (u : String) : lookup (s.map g) u = (lookup s u).map g := by
  induction s with
  | nil => rfl
  | cons d s ih =>
    simp only [List.map_cons, lookup, List.find?_cons] at *
    rw [hg d]
    by_cases h : d.uuid = u
    · simp [h]
    · simp only [h, decide_eq_true_eq, if_neg]
      simpa [h] using ih

theorem uuid_setRefByFun (u : String) (L : List (String × List String)) (d : Doc) :
    ((fun d => if d.uuid = u then { d with referencedBy := L } else d) d).uuid = d.uuid := by
  by_cases h : d.uuid = u <;> simp [h]

theorem uuid_setRefsFun (u : String) (R : List String) (d : Doc) :
    ((fun d => if d.uuid = u then { d with references := R } else d) d).uuid = d.uuid := by
  by_cases h : d.uuid = u <;> simp [h]

theorem lookup_setRefBy (s : Store) (u : String) (L : List (String × List String))
    (v : String) :
    lookup (setRefBy s u L) v =
      (lookup s v).map (fun d => if d.uuid = u then { d with referencedBy := L } else d) :=
  lookup_map_pres _ (uuid_setRefByFun u L) s v

theorem lookup_setRefs (s : Store) (u : String) (R : List String) (v : String) :
    lookup (setRefs s u R) v =
      (lookup s v).map (fun d => if d.uuid = u then { d with references := R } else d) :=
  lookup_map_pres _ (uuid_setRefsFun u R) s v

theorem lookup_uuid {s : Store} {u : String} {d : Doc} (h : lookup s u = some d) :
    d.uuid = u := by
  have := List.find?_some h
  simpa using this

theorem lookup_mem {s : Store} {u : String} {d : Doc} (h : lookup s u = some d) :
    d ∈ s :=
  List.mem_of_find?_eq_some h

theorem refByOf_setRefs (s : Store) (u : String) (R : List String) (v : String) :
    refByOf (setRefs s u R) v = refByOf s v := by
  rw [refByOf, lookup_setRefs, refByOf]
  cases h : lookup s v with
  | none => rfl
  | some d => by_cases hd : d.uuid = u <;> simp [hd]

theorem refsOf_setRefBy (s : Store) (u : String) (L : List (String × List String))
    (v : String) : refsOf (setRefBy s u L) v = refsOf s v := by
  rw [refsOf, lookup_setRefBy, refsOf]
  cases h : lookup s v with
  | none => rfl
  | some d => by_cases hd : d.uuid = u <;> simp [hd]

theorem refByOf_setRefBy_ne (s : Store) (u : String) (L : List (String × List String))
    (v : String) (hv : v ≠ u) : refByOf (setRefBy s u L) v = refByOf s v := by
  rw [refByOf, lookup_setRefBy, refByOf]
  cases h : lookup s v with
  | none => rfl
  | some d =>
    have : d.uuid = v := lookup_uuid h
    simp [this, hv]

theorem refByOf_setRefBy_self (s : Store) (u : String) (L : List (String × List String))
    (hu : (lookup s u).isSome) : refByOf (setRefBy s u L) u = L := by
  rw [refByOf, lookup_setRefBy]
  cases h : lookup s u with
  | none => rw [h] at hu; simp at hu
  | some d =>
    have : d.uuid = u := lookup_uuid h
    simp [this]

theorem refsOf_setRefs_self (s : Store) (u : String) (R : List String)
    (hu : (lookup s u).isSome) : refsOf (setRefs s u R) u = R := by
  rw [refsOf, lookup_setRefs]
  cases h : lookup s u with
  | none => rw [h] at hu; simp at hu
  | some d =>
    have : d.uuid = u := lookup_uuid h
    simp [this]

theorem refsOf_setRefs_nil (s : Store) (u : String) :
    refsOf (setRefs s u []) u = [] := by
  rw [refsOf, lookup_setRefs]
  cases h : lookup s u with
  | none => rfl
  | some d =>
    have : d.uuid = u := lookup_uuid h
    simp [this]

theorem isSome_setRefBy (s : Store) (u : String) (L : List (String × List String))
    (v : String) : (lookup (setRefBy s u L) v).isSome = (lookup s v).isSome := by
  rw [lookup_setRefBy]
  cases lookup s v <;> rfl

theorem isSome_setRefs (s : Store) (u : String) (R : List String) (v : String) :
    (lookup (setRefs s u R) v).isSome = (lookup s v).isSome := by
  rw [lookup_setRefs]
  cases lookup s v <;> rfl


theorem getBucket_nil (ty : String) : getBucket [] ty = [] := rfl

theorem getBucket_setBucket (l : List (String × List String)) (ty : String)
    (v : List String) : getBucket (setBucket l ty v) ty = v := by
  rw [setBucket]
  by_cases h : hasBucket l ty
  · rw [if_pos h]
    rw [hasBucket] at h
    induction l with
    | nil => simp at h
    | cons p l ih =>
      simp only [List.any_cons, Bool.or_eq_true, decide_eq_true_eq] at h
      by_cases hp : p.1 = ty
      · simp [getBucket, hp]
      · simp only [List.map_cons, if_neg hp, getBucket, List.find?_cons]
        have hp2 : (decide (p.1 = ty)) = false := by simp [hp]
        rw [hp2]
        have h2 : l.any (fun p => decide (p.1 = ty)) = true := by
          rcases h with h | h
          · exact absurd h hp
          · simpa using h
        exact ih h2
  · rw [if_neg h]
    rw [hasBucket] at h
    induction l with
    | nil => simp [getBucket]
    | cons p l ih =>
      simp only [List.any_cons, Bool.or_eq_true, decide_eq_true_eq, not_or] at h
      simp only [List.cons_append, getBucket, List.find?_cons]
      have hp2 : (decide (p.1 = ty)) = false := by simp [h.1]
      rw [hp2]
      have := ih (by simpa using h.2)
      simpa [getBucket] using this

theorem getBucket_map_setEntry_ne (ty ty2 : String) (v : List String) (h : ty2 ≠ ty) :
    ∀ l : List (String × List String),
      getBucket (List.map (fun p => if p.1 = ty then (ty, v) else p) l) ty2 =
        getBucket l ty2 := by
  intro l
  induction l with
  | nil => rfl
  | cons p l ih =>
    by_cases hp : p.1 = ty
    · simp only [List.map_cons, if_pos hp, getBucket, List.find?_cons]
      have h1 : (decide ((ty, v).1 = ty2)) = false := by simp [Ne.symm h]
      have h2 : (decide (p.1 = ty2)) = false := by simp [hp, Ne.symm h]
      rw [h1, h2]
      exact ih
    · simp only [List.map_cons, if_neg hp, getBucket, List.find?_cons]
      cases hq : (decide (p.1 = ty2)) with
      | true => rfl
      | false => exact ih

theorem getBucket_setBucket_ne (l : List (String × List String)) (ty ty2 : String)
    (v : List String) (h : ty2 ≠ ty) : getBucket (setBucket l ty v) ty2 = getBucket l ty2 := by
  rw [setBucket]
  by_cases hb : hasBucket l ty
  · rw [if_pos hb]
    exact getBucket_map_setEntry_ne ty ty2 v h l
  · rw [if_neg hb]
    rw [getBucket, getBucket, List.find?_append]
    have hnone : List.find? (fun p => p.1 = ty2) [(ty, v)] = none := by
      simp [Ne.symm h]
    rw [hnone]
    cases List.find? (fun p => p.1 = ty2) l <;> rfl

theorem getBucket_delBucket (l : List (String × List String)) (ty : String) :
    getBucket (delBucket l ty) ty = [] := by
  rw [delBucket, getBucket]
  have : List.find? (fun p => p.1 = ty) (l.filter (fun p => ¬p.1 = ty)) = none := by
    rw [List.find?_eq_none]
    intro p hp
    have := List.of_mem_filter hp
    simpa using this
  rw [this]
  rfl

theorem hasBucket_delBucket (l : List (String × List String)) (ty : String) :
    hasBucket (delBucket l ty) ty = false := by
  rw [delBucket, hasBucket]
  simp only [List.any_eq_false]
  intro p hp
  have := List.of_mem_filter hp
  simpa using this

theorem getBucket_delBucket_ne (l : List (String × List String)) (ty ty2 : String)
    (h : ty2 ≠ ty) : getBucket (delBucket l ty) ty2 = getBucket l ty2 := by
  rw [delBucket, getBucket, getBucket]
  induction l with
  | nil => rfl
  | cons p l ih =>
    by_cases hp : p.1 = ty
    · have h1 : (decide (¬p.1 = ty)) = false := by simp [hp]
      rw [List.filter_cons, h1]
      simp only [List.find?_cons]
      have h2 : (decide (p.1 = ty2)) = false := by simp [hp, Ne.symm h]
      rw [h2]
      exact ih
    · have h1 : (decide (¬p.1 = ty)) = true := by simp [hp]
      rw [List.filter_cons, h1]
      simp only [if_true, List.find?_cons]
      cases hq : (decide (p.1 = ty2)) with
      | true => rfl
      | false => exact ih

theorem mem_dedupFold (x : String) :
    ∀ (l up : List String), x ∈ List.foldl dedupStep up l ↔ x ∈ up ∨ x ∈ l := by
  intro l
  induction l with
  | nil => simp
  | cons r l ih =>
    intro up
    rw [List.foldl_cons, ih, dedupStep]
    by_cases h : r ∈ up
    · rw [if_pos h]
      constructor
      · rintro (hx | hx)
        · exact Or.inl hx
        · exact Or.inr (List.mem_cons_of_mem _ hx)
      · rintro (hx | hx)
        · exact Or.inl hx
        · rcases List.mem_cons.mp hx with rfl | hx
          · exact Or.inl h
          · exact Or.inr hx
    · rw [if_neg h]
      simp only [List.mem_append, List.mem_singleton, List.mem_cons]
      tauto

theorem nodup_dedupFold :
    ∀ (l up : List String), up.Nodup → (List.foldl dedupStep up l).Nodup := by
  intro l
  induction l with
  | nil => intro up h; exact h
  | cons r l ih =>
    intro up h
    rw [List.foldl_cons, dedupStep]
    by_cases hr : r ∈ up
    · rw [if_pos hr]; exact ih up h
    · rw [if_neg hr]
      refine ih _ ?_
      rw [List.nodup_append]
      exact ⟨h, List.nodup_singleton r, by simpa using hr⟩

theorem addFold_snd (a ty : String) (ex : List String) :
    ∀ (refs : List String) (s : Store) (up : List String),
      (refs.foldl (addStep a ty ex) (s, up)).2 =
        List.foldl dedupStep up (refs.map (resolveRef a ty)) := by
  intro refs
  induction refs with
  | nil => intro s up; rfl
  | cons r refs ih =>
    intro s up
    rw [List.foldl_cons, List.map_cons, List.foldl_cons]
    rw [addStep, dedupStep]
    by_cases h : resolveRef a ty r ∈ up
    · rw [if_pos h, if_pos h]
      exact ih s up
    · rw [if_neg h, if_neg h]
      by_cases h2 : resolveRef a ty r ∈ ex
      · simp only [if_pos h2]
        exact ih s _
      · simp only [if_neg h2]
        cases lookup s (resolveRef a ty r) with
        | none => exact ih s _
        | some referenced =>
          by_cases h3 : a ∈ getBucket referenced.referencedBy ty
          · simp only [if_pos h3]
            exact ih s _
          · simp only [if_neg h3]
            exact ih _ _


theorem map_essence_setRefBy (s : Store) (u : String) (L : List (String × List String)) :
    (setRefBy s u L).map essence = s.map essence := by
  rw [setRefBy, List.map_map]
  apply List.map_congr_left
  intro d _
  by_cases h : d.uuid = u <;> simp [h, essence]

theorem map_essence_setRefs (s : Store) (u : String) (R : List String) :
    (setRefs s u R).map essence = s.map essence := by
  rw [setRefs, List.map_map]
  apply List.map_congr_left
  intro d _
  by_cases h : d.uuid = u <;> simp [h, essence]

theorem map_references_setRefBy (s : Store) (u : String) (L : List (String × List String)) :
    (setRefBy s u L).map Doc.references = s.map Doc.references := by
  rw [setRefBy, List.map_map]
  apply List.map_congr_left
  intro d _
  by_cases h : d.uuid = u <;> simp [h]

theorem refByOf_addStep_ne (a ty : String) (ex : List String) (acc : Store × List String)
    (r v : String) (hv : v ≠ resolveRef a ty r) :
    refByOf (addStep a ty ex acc r).1 v = refByOf acc.1 v := by
  rw [addStep]
  by_cases h1 : resolveRef a ty r ∈ acc.2
  · rw [if_pos h1]
  · rw [if_neg h1]
    dsimp only
    by_cases h2 : resolveRef a ty r ∈ ex
    · rw [if_pos h2]
    · rw [if_neg h2]
      cases hl : lookup acc.1 (resolveRef a ty r) with
      | none => rfl
      | some referenced =>
        dsimp only
        by_cases h3 : a ∈ getBucket referenced.referencedBy ty
        · rw [if_pos h3]
        · rw [if_neg h3]
          exact refByOf_setRefBy_ne _ _ _ _ hv

theorem isSome_addStep (a ty : String) (ex : List String) (acc : Store × List String)
    (r v : String) :
    (lookup (addStep a ty ex acc r).1 v).isSome = (lookup acc.1 v).isSome := by
  rw [addStep]
  by_cases h1 : resolveRef a ty r ∈ acc.2
  · rw [if_pos h1]
  · rw [if_neg h1]
    dsimp only
    by_cases h2 : resolveRef a ty r ∈ ex
    · rw [if_pos h2]
    · rw [if_neg h2]
      cases hl : lookup acc.1 (resolveRef a ty r) with
      | none => rfl
      | some referenced =>
        dsimp only
        by_cases h3 : a ∈ getBucket referenced.referencedBy ty
        · rw [if_pos h3]
        · rw [if_neg h3]
          exact isSome_setRefBy _ _ _ _

theorem map_essence_addStep (a ty : String) (ex : List String) (acc : Store × List String)
    (r : String) : (addStep a ty ex acc r).1.map essence = acc.1.map essence := by
  rw [addStep]
  by_cases h1 : resolveRef a ty r ∈ acc.2
  · rw [if_pos h1]
  · rw [if_neg h1]
    dsimp only
    by_cases h2 : resolveRef a ty r ∈ ex
    · rw [if_pos h2]
    · rw [if_neg h2]
      cases hl : lookup acc.1 (resolveRef a ty r) with
      | none => rfl
      | some referenced =>
        dsimp only
        by_cases h3 : a ∈ getBucket referenced.referencedBy ty
        · rw [if_pos h3]
        · rw [if_neg h3]
          exact map_essence_setRefBy _ _ _

theorem map_references_addStep (a ty : String) (ex : List String) (acc : Store × List String)
    (r : String) : (addStep a ty ex acc r).1.map Doc.references = acc.1.map Doc.references := by
  rw [addStep]
  by_cases h1 : resolveRef a ty r ∈ acc.2
  · rw [if_pos h1]
  · rw [if_neg h1]
    dsimp only
    by_cases h2 : resolveRef a ty r ∈ ex
    · rw [if_pos h2]
    · rw [if_neg h2]
      cases hl : lookup acc.1 (resolveRef a ty r) with
      | none => rfl
      | some referenced =>
        dsimp only
        by_cases h3 : a ∈ getBucket referenced.referencedBy ty
        · rw [if_pos h3]
        · rw [if_neg h3]
          exact map_references_setRefBy _ _ _

theorem refByOf_removeStep_ne (a ty : String) (s : Store) (o v : String) (hv : v ≠ o) :
    refByOf (removeStep a ty s o) v = refByOf s v := by
  rw [removeStep]
  cases hl : lookup s o with
  | none => rfl
  | some target =>
    dsimp only
    by_cases h1 : a ∈ getBucket target.referencedBy ty
    · rw [if_pos h1]
      by_cases h2 : ((getBucket target.referencedBy ty).erase a).isEmpty
      · rw [if_pos h2]
        exact refByOf_setRefBy_ne _ _ _ _ hv
      · rw [if_neg h2]
        exact refByOf_setRefBy_ne _ _ _ _ hv
    · rw [if_neg h1]

theorem isSome_removeStep (a ty : String) (s : Store) (o v : String) :
    (lookup (removeStep a ty s o) v).isSome = (lookup s v).isSome := by
  rw [removeStep]
  cases hl : lookup s o with
  | none => rfl
  | some target =>
    dsimp only
    by_cases h1 : a ∈ getBucket target.referencedBy ty
    · rw [if_pos h1]
      by_cases h2 : ((getBucket target.referencedBy ty).erase a).isEmpty
      · rw [if_pos h2]
        exact isSome_setRefBy _ _ _ _
      · rw [if_neg h2]
        exact isSome_setRefBy _ _ _ _
    · rw [if_neg h1]

theorem map_essence_removeStep (a ty : String) (s : Store) (o : String) :
    (removeStep a ty s o).map essence = s.map essence := by
  rw [removeStep]
  cases hl : lookup s o with
  | none => rfl
  | some target =>
    dsimp only
    by_cases h1 : a ∈ getBucket target.referencedBy ty
    · rw [if_pos h1]
      by_cases h2 : ((getBucket target.referencedBy ty).erase a).isEmpty
      · rw [if_pos h2]
        exact map_essence_setRefBy _ _ _
      · rw [if_neg h2]
        exact map_essence_setRefBy _ _ _
    · rw [if_neg h1]

theorem map_references_removeStep (a ty : String) (s : Store) (o : String) :
    (removeStep a ty s o).map Doc.references = s.map Doc.references := by
  rw [removeStep]
  cases hl : lookup s o with
  | none => rfl
  | some target =>
    dsimp only
    by_cases h1 : a ∈ getBucket target.referencedBy ty
    · rw [if_pos h1]
      by_cases h2 : ((getBucket target.referencedBy ty).erase a).isEmpty
      · rw [if_pos h2]
        exact map_references_setRefBy _ _ _
      · rw [if_neg h2]
        exact map_references_setRefBy _ _ _
    · rw [if_neg h1]


theorem refsOf_setRefs_ne (s : Store) (u : String) (R : List String) (v : String)
    (hv : v ≠ u) : refsOf (setRefs s u R) v = refsOf s v := by
  rw [refsOf, lookup_setRefs, refsOf]
  cases h : lookup s v with
  | none => rfl
  | some d =>
    have : d.uuid = v := lookup_uuid h
    simp [this, hv]

theorem refsOf_addStep (a ty : String) (ex : List String) (acc : Store × List String)
    (r v : String) : refsOf (addStep a ty ex acc r).1 v = refsOf acc.1 v := by
  rw [addStep]
  by_cases h1 : resolveRef a ty r ∈ acc.2
  · rw [if_pos h1]
  · rw [if_neg h1]
    dsimp only
    by_cases h2 : resolveRef a ty r ∈ ex
    · rw [if_pos h2]
    · rw [if_neg h2]
      cases hl : lookup acc.1 (resolveRef a ty r) with
      | none => rfl
      | some referenced =>
        dsimp only
        by_cases h3 : a ∈ getBucket referenced.referencedBy ty
        · rw [if_pos h3]
        · rw [if_neg h3]
          exact refsOf_setRefBy _ _ _ _

theorem refsOf_removeStep (a ty : String) (s : Store) (o v : String) :
    refsOf (removeStep a ty s o) v = refsOf s v := by
  rw [removeStep]
  cases hl : lookup s o with
  | none => rfl
  | some target =>
    dsimp only
    by_cases h1 : a ∈ getBucket target.referencedBy ty
    · rw [if_pos h1]
      by_cases h2 : ((getBucket target.referencedBy ty).erase a).isEmpty
      · rw [if_pos h2]
        exact refsOf_setRefBy _ _ _ _
      · rw [if_neg h2]
        exact refsOf_setRefBy _ _ _ _
    · rw [if_neg h1]

theorem refByOf_addFold_notMem (a ty : String) (ex : List String) (b : String) :
    ∀ (refs : List String) (acc : Store × List String),
      (¬b ∈ refs.map (resolveRef a ty)) →
      refByOf (refs.foldl (addStep a ty ex) acc).1 b = refByOf acc.1 b := by
  intro refs
  induction refs with
  | nil => intro acc _; rfl
  | cons r refs ih =>
    intro acc hb
    simp only [List.map_cons, List.mem_cons, not_or] at hb
    rw [List.foldl_cons]
    rw [ih _ (by simpa using hb.2)]
    exact refByOf_addStep_ne a ty ex acc r b hb.1

theorem isSome_addFold (a ty : String) (ex : List String) (v : String) :
    ∀ (refs : List String) (acc : Store × List String),
      (lookup (refs.foldl (addStep a ty ex) acc).1 v).isSome = (lookup acc.1 v).isSome := by
  intro refs
  induction refs with
  | nil => intro acc; rfl
  | cons r refs ih =>
    intro acc
    rw [List.foldl_cons, ih, isSome_addStep]

theorem refsOf_addFold (a ty : String) (ex : List String) (v : String) :
    ∀ (refs : List String) (acc : Store × List String),
      refsOf (refs.foldl (addStep a ty ex) acc).1 v = refsOf acc.1 v := by
  intro refs
  induction refs with
  | nil => intro acc; rfl
  | cons r refs ih =>
    intro acc
    rw [List.foldl_cons, ih, refsOf_addStep]

theorem map_essence_addFold (a ty : String) (ex : List String) :
    ∀ (refs : List String) (acc : Store × List String),
      (refs.foldl (addStep a ty ex) acc).1.map essence = acc.1.map essence := by
  intro refs
  induction refs with
  | nil => intro acc; rfl
  | cons r refs ih =>
    intro acc
    rw [List.foldl_cons, ih, map_essence_addStep]

theorem map_references_addFold (a ty : String) (ex : List String) :
    ∀ (refs : List String) (acc : Store × List String),
      (refs.foldl (addStep a ty ex) acc).1.map Doc.references = acc.1.map Doc.references := by
  intro refs
  induction refs with
  | nil => intro acc; rfl
  | cons r refs ih =>
    intro acc
    rw [List.foldl_cons, ih, map_references_addStep]

theorem refByOf_removeFold_notMem (a ty : String) (b : String) :
    ∀ (L : List String) (s : Store), (¬b ∈ L) →
      refByOf (L.foldl (removeStep a ty) s) b = refByOf s b := by
  intro L
  induction L with
  | nil => intro s _; rfl
  | cons o L ih =>
    intro s hb
    simp only [List.mem_cons, not_or] at hb
    rw [List.foldl_cons, ih _ hb.2]
    exact refByOf_removeStep_ne a ty s o b hb.1

theorem isSome_removeFold (a ty : String) (v : String) :
    ∀ (L : List String) (s : Store),
      (lookup (L.foldl (removeStep a ty) s) v).isSome = (lookup s v).isSome := by
  intro L
  induction L with
  | nil => intro s; rfl
  | cons o L ih =>
    intro s
    rw [List.foldl_cons, ih, isSome_removeStep]

theorem refsOf_removeFold (a ty : String) (v : String) :
    ∀ (L : List String) (s : Store),
      refsOf (L.foldl (removeStep a ty) s) v = refsOf s v := by
  intro L
  induction L with
  | nil => intro s; rfl
  | cons o L ih =>
    intro s
    rw [List.foldl_cons, ih, refsOf_removeStep]

theorem map_essence_removeFold (a ty : String) :
    ∀ (L : List String) (s : Store),
      (L.foldl (removeStep a ty) s).map essence = s.map essence := by
  intro L
  induction L with
  | nil => intro s; rfl
  | cons o L ih =>
    intro s
    rw [List.foldl_cons, ih, map_essence_removeStep]

theorem map_references_removeFold (a ty : String) :
    ∀ (L : List String) (s : Store),
      (L.foldl (removeStep a ty) s).map Doc.references = s.map Doc.references := by
  intro L
  induction L with
  | nil => intro s; rfl
  | cons o L ih =>
    intro s
    rw [List.foldl_cons, ih, map_references_removeStep]


theorem update_skip (ro : Bool) (s : Store) (a ty c : String) (force : Bool)
    (h : force = false ∧ ro = false) : update ro s a ty c force = s := by
  rw [update, if_pos h]

theorem isSome_update (ro : Bool) (s : Store) (a ty c : String) (force : Bool)
    (v : String) : (lookup (update ro s a ty c force) v).isSome = (lookup s v).isSome := by
  rw [update]
  by_cases hg : force = false ∧ ro = false
  · rw [if_pos hg]
  · rw [if_neg hg]
    dsimp only
    rw [isSome_setRefs, isSome_removeFold, isSome_addFold]

theorem refsOf_update_self (ro : Bool) (s : Store) (a ty c : String) (force : Bool)
    (hg : ¬(force = false ∧ ro = false)) (ha : (lookup s a).isSome) :
    refsOf (update ro s a ty c force) a = newRefs a ty c := by
  rw [update, if_neg hg]
  dsimp only
  rw [addFold_snd]
  rw [refsOf_setRefs_self]
  · rfl
  · rw [isSome_removeFold, isSome_addFold]
    exact ha

theorem refsOf_update_ne (ro : Bool) (s : Store) (a ty c : String) (force : Bool)
    (v : String) (hv : v ≠ a) : refsOf (update ro s a ty c force) v = refsOf s v := by
  rw [update]
  by_cases hg : force = false ∧ ro = false
  · rw [if_pos hg]
  · rw [if_neg hg]
    dsimp only
    rw [refsOf_setRefs_ne _ _ _ _ hv, refsOf_removeFold, refsOf_addFold]

theorem map_essence_update (ro : Bool) (s : Store) (a ty c : String) (force : Bool) :
    (update ro s a ty c force).map essence = s.map essence := by
  rw [update]
  by_cases hg : force = false ∧ ro = false
  · rw [if_pos hg]
  · rw [if_neg hg]
    dsimp only
    rw [map_essence_setRefs, map_essence_removeFold, map_essence_addFold]

theorem setRefs_mem_uuid (s : Store) (u : String) (R : List String) :
    ∀ d ∈ setRefs s u R, d.uuid = u → d.references = R := by
  intro d hd hdu
  rw [setRefs] at hd
  rcases List.mem_map.mp hd with ⟨d0, _, rfl⟩
  by_cases h : d0.uuid = u
  · simp [h]
  · rw [if_neg h] at hdu ⊢
    exact absurd hdu h

theorem refs_at_update_self (ro : Bool) (s : Store) (a ty c : String) (force : Bool)
    (hg : ¬(force = false ∧ ro = false)) :
    ∀ d ∈ update ro s a ty c force, d.uuid = a → d.references = newRefs a ty c := by
  intro d hd hda
  rw [update, if_neg hg] at hd
  dsimp only at hd
  rw [addFold_snd] at hd
  exact setRefs_mem_uuid _ _ _ d hd hda

theorem setRefs_eq_self (s : Store) (u : String) (R : List String)
    (h : ∀ d ∈ s, d.uuid = u → d.references = R) : setRefs s u R = s := by
  rw [setRefs]
  have h2 : ∀ d ∈ s, (if d.uuid = u then { d with references := R } else d) = d := by
    intro d hd
    by_cases hdu : d.uuid = u
    · rw [if_pos hdu, ← h d hd hdu]
    · rw [if_neg hdu]
  calc s.map (fun d => if d.uuid = u then { d with references := R } else d)
      = s.map id := List.map_congr_left h2
    _ = s := List.map_id s

theorem addFold_noop (a ty : String) (ex : List String) :
    ∀ (refs : List String) (s : Store) (up : List String),
      (∀ r ∈ refs, resolveRef a ty r ∈ ex) →
      refs.foldl (addStep a ty ex) (s, up) =
        (s, List.foldl dedupStep up (refs.map (resolveRef a ty))) := by
  intro refs
  induction refs with
  | nil => intro s up _; rfl
  | cons r refs ih =>
    intro s up hall
    rw [List.foldl_cons, List.map_cons, List.foldl_cons, addStep, dedupStep]
    by_cases h1 : resolveRef a ty r ∈ up
    · rw [if_pos h1, if_pos h1]
      exact ih s up (fun r2 hr2 => hall r2 (List.mem_cons_of_mem _ hr2))
    · rw [if_neg h1, if_neg h1]
      dsimp only
      rw [if_pos (hall r (List.mem_cons_self _ _))]
      exact ih s _ (fun r2 hr2 => hall r2 (List.mem_cons_of_mem _ hr2))

theorem filter_not_mem_self (U : List String) : U.filter (fun v => ¬v ∈ U) = [] := by
  rw [List.filter_eq_nil_iff]
  intro v hv
  simp [hv]

theorem update_idem (ro : Bool) (s : Store) (a ty c : String) (force : Bool)
    (ha : (lookup s a).isSome) :
    update ro (update ro s a ty c force) a ty c force = update ro s a ty c force := by
  by_cases hg : force = false ∧ ro = false
  · rw [update_skip ro s a ty c force hg, update_skip ro s a ty c force hg]
  · have hrefs : refsOf (update ro s a ty c force) a = newRefs a ty c :=
      refsOf_update_self ro s a ty c force hg ha
    conv_lhs => rw [update, if_neg hg]
    dsimp only
    rw [hrefs]
    have hall : ∀ r ∈ references c, resolveRef a ty r ∈ newRefs a ty c := by
      intro r hr
      rw [newRefs, mem_dedupFold]
      right
      rw [resolvedRefs]
      exact List.mem_map_of_mem _ hr
    rw [addFold_noop a ty _ (references c) _ [] hall]
    dsimp only
    rw [show List.foldl dedupStep [] ((references c).map (resolveRef a ty)) =
          newRefs a ty c from rfl]
    rw [filter_not_mem_self]
    rw [List.foldl_nil]
    exact setRefs_eq_self _ _ _ (refs_at_update_self ro s a ty c force hg)

theorem count_eq_one_of_mem {l : List String} {a : String} (h1 : a ∈ l)
    (h2 : l.count a ≤ 1) : l.count a = 1 :=
  le_antisymm h2 (List.count_pos_iff.mpr h1)

theorem addFold_bucket_main (a ty : String) (ex : List String) (b : String)
    (B0 : List String) (hcons : b ∈ ex → a ∈ B0) (honce : B0.count a ≤ 1) :
    ∀ (refs : List String) (s : Store) (up : List String),
      (lookup s b).isSome →
      ((¬b ∈ up) → bucketOf s b ty = B0) →
      (b ∈ up → a ∈ bucketOf s b ty ∧ (bucketOf s b ty).count a = 1) →
      (b ∈ up ∨ b ∈ refs.map (resolveRef a ty)) →
      a ∈ bucketOf (refs.foldl (addStep a ty ex) (s, up)).1 b ty ∧
        (bucketOf (refs.foldl (addStep a ty ex) (s, up)).1 b ty).count a = 1 := by
  intro refs
  induction refs with
  | nil =>
    intro s up _ _ hin hreach
    rcases hreach with h | h
    · exact hin h
    · simp at h
  | cons r refs ih =>
    intro s up hsome hout hin hreach
    rw [List.foldl_cons]
    by_cases h1 : resolveRef a ty r ∈ up
    · rw [addStep, if_pos h1]
      refine ih s up hsome hout hin ?_
      rcases hreach with h | h
      · exact Or.inl h
      · rw [List.map_cons] at h
        rcases List.mem_cons.mp h with h2 | h2
        · exact Or.inl (by rw [h2]; exact h1)
        · exact Or.inr h2
    · rw [addStep, if_neg h1]
      dsimp only
      by_cases hbr : b = resolveRef a ty r
      · -- this step processes (the first occurrence of) b itself
        rw [← hbr] at h1 ⊢
        have hb0 : bucketOf s b ty = B0 := hout h1
        by_cases h2 : b ∈ ex
        · rw [if_pos h2]
          refine ih s _ hsome ?_ ?_ (Or.inl (by simp)) <;> intro hmem
          · exact absurd (by simp : b ∈ up ++ [b]) hmem
          · have ha0 : a ∈ B0 := hcons h2
            rw [hb0]
            exact ⟨ha0, count_eq_one_of_mem ha0 honce⟩
        · rw [if_neg h2]
          cases hl : lookup s b with
          | none => rw [hl] at hsome; simp at hsome
          | some referenced =>
            dsimp only
            have hlinks : referenced.referencedBy = refByOf s b := by
              rw [refByOf, hl]; rfl
            by_cases h3 : a ∈ getBucket referenced.referencedBy ty
            · rw [if_pos h3]
              refine ih s _ hsome ?_ ?_ (Or.inl (by simp)) <;> intro hmem
              · exact absurd (by simp : b ∈ up ++ [b]) hmem
              · rw [hlinks] at h3
                have h3b : a ∈ bucketOf s b ty := h3
                rw [hb0] at h3b ⊢
                exact ⟨h3b, count_eq_one_of_mem h3b honce⟩
            · rw [if_neg h3]
              set L2 := setBucket referenced.referencedBy ty
                (getBucket referenced.referencedBy ty ++ [a]) with hL2
              refine ih _ _ (by rw [isSome_setRefBy]; exact hsome) ?_ ?_
                (Or.inl (by simp)) <;> intro hmem
              · exact absurd (by simp : b ∈ up ++ [b]) hmem
              · have hbb : bucketOf (setRefBy s b L2) b ty =
                    getBucket referenced.referencedBy ty ++ [a] := by
                  rw [bucketOf, refByOf_setRefBy_self s b L2 hsome, hL2,
                    getBucket_setBucket]
                rw [hbb]
                constructor
                · simp
                · rw [List.count_append]
                  have : (getBucket referenced.referencedBy ty).count a = 0 :=
                    List.count_eq_zero.mpr h3
                  rw [this]
                  simp
      · -- some other reference: the bucket of b is untouched
        have hframe : ∀ L2, bucketOf (setRefBy s (resolveRef a ty r) L2) b ty =
            bucketOf s b ty := by
          intro L2
          rw [bucketOf, refByOf_setRefBy_ne s _ L2 b hbr]
          rfl
        have hmemup2 : b ∈ up ++ [resolveRef a ty r] ↔ b ∈ up := by
          simp [hbr]
        have hreach2 : ∀ up2 : List String, (b ∈ up2 ↔ b ∈ up) →
            (b ∈ up2 ∨ b ∈ refs.map (resolveRef a ty)) := by
          intro up2 hiff
          rcases hreach with h | h
          · exact Or.inl (hiff.mpr h)
          · rw [List.map_cons] at h
            rcases List.mem_cons.mp h with h2 | h2
            · exact absurd h2 hbr
            · exact Or.inr h2
        by_cases h2 : resolveRef a ty r ∈ ex
        · rw [if_pos h2]
          refine ih s _ hsome (fun hm => hout (fun hb => hm (hmemup2.mpr hb)))
            (fun hm => hin (hmemup2.mp hm)) (hreach2 _ hmemup2)
        · rw [if_neg h2]
          cases hl : lookup s (resolveRef a ty r) with
          | none =>
            exact ih s _ hsome (fun hm => hout (fun hb => hm (hmemup2.mpr hb)))
              (fun hm => hin (hmemup2.mp hm)) (hreach2 _ hmemup2)
          | some referenced =>
            dsimp only
            by_cases h3 : a ∈ getBucket referenced.referencedBy ty
            · rw [if_pos h3]
              exact ih s _ hsome (fun hm => hout (fun hb => hm (hmemup2.mpr hb)))
                (fun hm => hin (hmemup2.mp hm)) (hreach2 _ hmemup2)
            · rw [if_neg h3]
              refine ih _ _ (by rw [isSome_setRefBy]; exact hsome) ?_ ?_
                (hreach2 _ hmemup2)
              · intro hm
                rw [hframe]
                exact hout (fun hb => hm (hmemup2.mpr hb))
              · intro hm
                rw [hframe]
                exact hin (hmemup2.mp hm)

theorem removeStep_post (a ty b : String) (s : Store)
    (h0 : (bucketOf s b ty).count a = 0)
    (h1 : bucketOf s b ty = [] → hasBucket (refByOf s b) ty = false) (o : String) :
    (bucketOf (removeStep a ty s o) b ty).count a = 0 ∧
      (bucketOf (removeStep a ty s o) b ty = [] →
        hasBucket (refByOf (removeStep a ty s o) b) ty = false) := by
  by_cases ho : b = o
  · subst ho
    rw [removeStep]
    cases hl : lookup s b with
    | none => exact ⟨h0, h1⟩
    | some target =>
      dsimp only
      have hlinks : target.referencedBy = refByOf s b := by rw [refByOf, hl]; rfl
      have hnot : ¬a ∈ getBucket target.referencedBy ty := by
        rw [hlinks]
        exact List.count_eq_zero.mp h0
      rw [if_neg hnot]
      exact ⟨h0, h1⟩
  · have hfr : refByOf (removeStep a ty s o) b = refByOf s b :=
      refByOf_removeStep_ne a ty s o b ho
    constructor
    · rw [bucketOf, hfr]
      exact h0
    · intro hnil
      rw [bucketOf, hfr] at hnil
      rw [hfr]
      exact h1 hnil

theorem removeFold_post (a ty b : String) :
    ∀ (L : List String) (s : Store),
      (bucketOf s b ty).count a = 0 →
      (bucketOf s b ty = [] → hasBucket (refByOf s b) ty = false) →
      (bucketOf (L.foldl (removeStep a ty) s) b ty).count a = 0 ∧
        (bucketOf (L.foldl (removeStep a ty) s) b ty = [] →
          hasBucket (refByOf (L.foldl (removeStep a ty) s) b) ty = false) := by
  intro L
  induction L with
  | nil => intro s h0 h1; exact ⟨h0, h1⟩
  | cons o L ih =>
    intro s h0 h1
    rw [List.foldl_cons]
    have := removeStep_post a ty b s h0 h1 o
    exact ih _ this.1 this.2

theorem removeStep_at_self (a ty b : String) (s : Store)
    (hsome : (lookup s b).isSome) (h1 : (bucketOf s b ty).count a = 1) :
    (bucketOf (removeStep a ty s b) b ty).count a = 0 ∧
      (bucketOf (removeStep a ty s b) b ty = [] →
        hasBucket (refByOf (removeStep a ty s b) b) ty = false) := by
  rw [removeStep]
  cases hl : lookup s b with
  | none => rw [hl] at hsome; simp at hsome
  | some target =>
    dsimp only
    have hlinks : target.referencedBy = refByOf s b := by rw [refByOf, hl]; rfl
    have hmem : a ∈ getBucket target.referencedBy ty := by
      rw [hlinks]
      show a ∈ bucketOf s b ty
      apply List.count_pos_iff.mp
      rw [h1]
      norm_num
    rw [if_pos hmem]
    have hcount : ((getBucket target.referencedBy ty).erase a).count a = 0 := by
      rw [List.count_erase_self, hlinks]
      rw [show getBucket (refByOf s b) ty = bucketOf s b ty from rfl, h1]
    by_cases hemp : ((getBucket target.referencedBy ty).erase a).isEmpty
    · rw [if_pos hemp]
      have hrb : refByOf (setRefBy s b (delBucket target.referencedBy ty)) b =
          delBucket target.referencedBy ty := refByOf_setRefBy_self s b _ hsome
      constructor
      · rw [bucketOf, hrb, getBucket_delBucket]
        rfl
      · intro _
        rw [hrb]
        exact hasBucket_delBucket _ _
    · rw [if_neg hemp]
      have hrb : refByOf (setRefBy s b
          (setBucket target.referencedBy ty ((getBucket target.referencedBy ty).erase a))) b =
          setBucket target.referencedBy ty ((getBucket target.referencedBy ty).erase a) :=
        refByOf_setRefBy_self s b _ hsome
      constructor
      · rw [bucketOf, hrb, getBucket_setBucket]
        exact hcount
      · intro hnil
        rw [bucketOf, hrb, getBucket_setBucket] at hnil
        rw [List.isEmpty_iff] at hemp
        exact absurd hnil hemp

theorem removeFold_reach (a ty b : String) :
    ∀ (L : List String) (s : Store),
      (lookup s b).isSome → (bucketOf s b ty).count a = 1 → b ∈ L →
      (bucketOf (L.foldl (removeStep a ty) s) b ty).count a = 0 ∧
        (bucketOf (L.foldl (removeStep a ty) s) b ty = [] →
          hasBucket (refByOf (L.foldl (removeStep a ty) s) b) ty = false) := by
  intro L
  induction L with
  | nil => intro s _ _ hmem; simp at hmem
  | cons o L ih =>
    intro s hsome h1 hmem
    rw [List.foldl_cons]
    by_cases ho : b = o
    · subst ho
      have := removeStep_at_self a ty b s hsome h1
      exact removeFold_post a ty b L _ this.1 this.2
    · rcases List.mem_cons.mp hmem with h | h
      · exact absurd h ho
      · refine ih _ ?_ ?_ h
        · rw [isSome_removeStep]
          exact hsome
        · rw [bucketOf, refByOf_removeStep_ne a ty s o b ho]
          exact h1

theorem update_bucket_add (ro : Bool) (s : Store) (a ty c : String) (force : Bool)
    (b : String) (hg : ¬(force = false ∧ ro = false)) (hb : (lookup s b).isSome)
    (hlink : b ∈ resolvedRefs a ty c)
    (hcons : b ∈ refsOf s a → a ∈ bucketOf s b ty)
    (honce : (bucketOf s b ty).count a ≤ 1) :
    a ∈ bucketOf (update ro s a ty c force) b ty ∧
      (bucketOf (update ro s a ty c force) b ty).count a = 1 := by
  rw [resolvedRefs] at hlink
  have key := addFold_bucket_main a ty (refsOf s a) b (bucketOf s b ty) hcons honce
    (references c) s [] hb (fun _ => rfl) (by intro h; simp at h) (Or.inr hlink)
  have hnotout : ¬b ∈ (refsOf s a).filter
      (fun v => ¬v ∈ (List.foldl (addStep a ty (refsOf s a)) (s, []) (references c)).2) := by
    intro hmem
    have h2 := (List.mem_filter.mp hmem).2
    rw [addFold_snd] at h2
    simp only [decide_eq_true_eq] at h2
    exact h2 (by rw [mem_dedupFold]; exact Or.inr hlink)
  rw [update, if_neg hg]
  dsimp only
  rw [bucketOf, refByOf_setRefs]
  rw [refByOf_removeFold_notMem a ty b _ _ hnotout]
  exact key

theorem update_bucket_remove (ro : Bool) (s1 : Store) (a ty c2 : String) (force : Bool)
    (b : String) (hg : ¬(force = false ∧ ro = false)) (hb : (lookup s1 b).isSome)
    (hbex : b ∈ refsOf s1 a) (hunlink : ¬b ∈ resolvedRefs a ty c2)
    (h1 : (bucketOf s1 b ty).count a = 1) :
    (bucketOf (update ro s1 a ty c2 force) b ty).count a = 0 ∧
      (bucketOf (update ro s1 a ty c2 force) b ty = [] →
        hasBucket (refByOf (update ro s1 a ty c2 force) b) ty = false) := by
  rw [resolvedRefs] at hunlink
  have hadd : refByOf (List.foldl (addStep a ty (refsOf s1 a)) (s1, []) (references c2)).1 b =
      refByOf s1 b := by
    have := refByOf_addFold_notMem a ty (refsOf s1 a) b (references c2) (s1, []) hunlink
    exact this
  have hbout : b ∈ (refsOf s1 a).filter
      (fun v => ¬v ∈ (List.foldl (addStep a ty (refsOf s1 a)) (s1, []) (references c2)).2) := by
    apply List.mem_filter.mpr
    refine ⟨hbex, ?_⟩
    simp only [decide_eq_true_eq]
    rw [addFold_snd]
    intro hcontra
    rw [mem_dedupFold] at hcontra
    rcases hcontra with h | h
    · simp at h
    · exact hunlink h
  have hreach := removeFold_reach a ty b
    ((refsOf s1 a).filter
      (fun v => ¬v ∈ (List.foldl (addStep a ty (refsOf s1 a)) (s1, []) (references c2)).2))
    (List.foldl (addStep a ty (refsOf s1 a)) (s1, []) (references c2)).1
    (by rw [isSome_addFold]; exact hb)
    (by rw [bucketOf, hadd]; exact h1)
    hbout
  rw [update, if_neg hg]
  dsimp only
  constructor
  · rw [bucketOf, refByOf_setRefs]
    exact hreach.1
  · intro hnil
    rw [bucketOf, refByOf_setRefs] at hnil
    rw [refByOf_setRefs]
    exact hreach.2 hnil

theorem uuids_eq_of_essence {sx sy : Store} (h : sx.map essence = sy.map essence) :
    uuids sx = uuids sy := by
  have hx : uuids sx = (sx.map essence).map Prod.fst := by
    rw [uuids, List.map_map]; rfl
  have hy : uuids sy = (sy.map essence).map Prod.fst := by
    rw [uuids, List.map_map]; rfl
  rw [hx, hy, h]

theorem map_essence_wipe (s : Store) :
    (List.map (fun d => { d with referencedBy := [] }) s).map essence = s.map essence := by
  rw [List.map_map]
  apply List.map_congr_left
  intro d _
  rfl

theorem map_essence_syncStep (ro : Bool) (acc : Store) (du : String × String) :
    (syncStep ro acc du).map essence = acc.map essence := by
  rw [syncStep]
  by_cases h : (lookup (setRefs acc du.1 []) du.1).elim "" Doc.content = ""
  · rw [if_pos h, map_essence_setRefs]
  · rw [if_neg h, map_essence_update, map_essence_setRefs]

theorem map_essence_syncFold (ro : Bool) :
    ∀ (L : List (String × String)) (z : Store),
      (L.foldl (syncStep ro) z).map essence = z.map essence := by
  intro L
  induction L with
  | nil => intro z; rfl
  | cons du L ih =>
    intro z
    rw [List.foldl_cons, ih, map_essence_syncStep]

theorem map_essence_sync (ro : Bool) (s : Store) :
    (sync ro s).map essence = s.map essence := by
  rw [sync]
  rw [map_essence_syncFold, map_essence_wipe]

theorem uuids_update (ro : Bool) (s : Store) (a ty c : String) (force : Bool) :
    uuids (update ro s a ty c force) = uuids s :=
  uuids_eq_of_essence (map_essence_update ro s a ty c force)

theorem uuids_sync (ro : Bool) (s : Store) : uuids (sync ro s) = uuids s :=
  uuids_eq_of_essence (map_essence_sync ro s)

theorem mem_uuids {s : Store} {d : Doc} (h : d ∈ s) : d.uuid ∈ uuids s :=
  List.mem_map_of_mem Doc.uuid h

theorem avoid_wipe (X : String) (s : Store) :
    Avoid X (List.map (fun d => { d with referencedBy := [] }) s) := by
  intro d hd ty
  rcases List.mem_map.mp hd with ⟨d0, _, rfl⟩
  rw [getBucket_nil]
  simp

theorem avoid_setRefs (X : String) (s : Store) (u : String) (R : List String)
    (h : Avoid X s) : Avoid X (setRefs s u R) := by
  intro d hd ty
  rw [setRefs] at hd
  rcases List.mem_map.mp hd with ⟨d0, hd0, rfl⟩
  by_cases hu : d0.uuid = u
  · rw [if_pos hu]
    exact h d0 hd0 ty
  · rw [if_neg hu]
    exact h d0 hd0 ty

theorem avoid_setRefBy (X : String) (s : Store) (u : String)
    (L : List (String × List String)) (h : Avoid X s)
    (hL : ∀ ty, ¬X ∈ getBucket L ty) : Avoid X (setRefBy s u L) := by
  intro d hd ty
  rw [setRefBy] at hd
  rcases List.mem_map.mp hd with ⟨d0, hd0, rfl⟩
  by_cases hu : d0.uuid = u
  · rw [if_pos hu]
    exact hL ty
  · rw [if_neg hu]
    exact h d0 hd0 ty

theorem avoid_addStep (X a ty : String) (ex : List String) (acc : Store × List String)
    (r : String) (haX : a ≠ X) (h : Avoid X acc.1) : Avoid X (addStep a ty ex acc r).1 := by
  rw [addStep]
  by_cases h1 : resolveRef a ty r ∈ acc.2
  · rw [if_pos h1]; exact h
  · rw [if_neg h1]
    dsimp only
    by_cases h2 : resolveRef a ty r ∈ ex
    · rw [if_pos h2]; exact h
    · rw [if_neg h2]
      cases hl : lookup acc.1 (resolveRef a ty r) with
      | none => exact h
      | some referenced =>
        dsimp only
        by_cases h3 : a ∈ getBucket referenced.referencedBy ty
        · rw [if_pos h3]; exact h
        · rw [if_neg h3]
          apply avoid_setRefBy X acc.1 _ _ h
          intro ty2
          by_cases hty : ty2 = ty
          · subst hty
            rw [getBucket_setBucket]
            have hXb : ¬X ∈ getBucket referenced.referencedBy ty2 :=
              h referenced (lookup_mem hl) ty2
            simp only [List.mem_append, List.mem_singleton]
            rintro (hx | hx)
            · exact hXb hx
            · exact haX hx.symm
          · rw [getBucket_setBucket_ne _ _ _ _ hty]
            exact h referenced (lookup_mem hl) ty2

theorem avoid_removeStep (X a ty : String) (s : Store) (o : String) (h : Avoid X s) :
    Avoid X (removeStep a ty s o) := by
  rw [removeStep]
  cases hl : lookup s o with
  | none => exact h
  | some target =>
    dsimp only
    by_cases h1 : a ∈ getBucket target.referencedBy ty
    · rw [if_pos h1]
      by_cases h2 : ((getBucket target.referencedBy ty).erase a).isEmpty
      · rw [if_pos h2]
        apply avoid_setRefBy X s _ _ h
        intro ty2
        by_cases hty : ty2 = ty
        · subst hty
          rw [getBucket_delBucket]
          simp
        · rw [getBucket_delBucket_ne _ _ _ hty]
          exact h target (lookup_mem hl) ty2
      · rw [if_neg h2]
        apply avoid_setRefBy X s _ _ h
        intro ty2
        by_cases hty : ty2 = ty
        · subst hty
          rw [getBucket_setBucket]
          intro hx
          exact h target (lookup_mem hl) ty2 (List.mem_of_mem_erase hx)
        · rw [getBucket_setBucket_ne _ _ _ _ hty]
          exact h target (lookup_mem hl) ty2
    · rw [if_neg h1]
      exact h

theorem avoid_addFold (X a ty : String) (ex : List String) (haX : a ≠ X) :
    ∀ (refs : List String) (acc : Store × List String),
      Avoid X acc.1 → Avoid X (refs.foldl (addStep a ty ex) acc).1 := by
  intro refs
  induction refs with
  | nil => intro acc h; exact h
  | cons r refs ih =>
    intro acc h
    rw [List.foldl_cons]
    exact ih _ (avoid_addStep X a ty ex acc r haX h)

theorem avoid_removeFold (X a ty : String) :
    ∀ (L : List String) (s : Store), Avoid X s → Avoid X (L.foldl (removeStep a ty) s) := by
  intro L
  induction L with
  | nil => intro s h; exact h
  | cons o L ih =>
    intro s h
    rw [List.foldl_cons]
    exact ih _ (avoid_removeStep X a ty s o h)

theorem avoid_update (X : String) (ro : Bool) (s : Store) (a ty c : String) (force : Bool)
    (haX : a ≠ X) (h : Avoid X s) : Avoid X (update ro s a ty c force) := by
  rw [update]
  by_cases hg : force = false ∧ ro = false
  · rw [if_pos hg]; exact h
  · rw [if_neg hg]
    dsimp only
    exact avoid_setRefs X _ _ _
      (avoid_removeFold X a ty _ _ (avoid_addFold X a ty _ haX _ _ h))

theorem avoid_syncStep (X : String) (ro : Bool) (acc : Store) (du : String × String)
    (hu : du.1 ≠ X) (h : Avoid X acc) : Avoid X (syncStep ro acc du) := by
  rw [syncStep]
  by_cases hc : (lookup (setRefs acc du.1 []) du.1).elim "" Doc.content = ""
  · rw [if_pos hc]
    exact avoid_setRefs X acc _ _ h
  · rw [if_neg hc]
    exact avoid_update X ro _ _ _ _ _ hu (avoid_setRefs X acc _ _ h)

theorem avoid_syncFold (X : String) (ro : Bool) :
    ∀ (L : List (String × String)) (z : Store),
      (∀ du ∈ L, du.1 ≠ X) → Avoid X z → Avoid X (L.foldl (syncStep ro) z) := by
  intro L
  induction L with
  | nil => intro z _ h; exact h
  | cons du L ih =>
    intro z hL h
    rw [List.foldl_cons]
    exact ih _ (fun du2 hdu2 => hL du2 (List.mem_cons_of_mem _ hdu2))
      (avoid_syncStep X ro z du (hL du (List.mem_cons_self _ _)) h)

theorem avoid_sync (X : String) (ro : Bool) (s : Store) (hX : ¬X ∈ uuids s) :
    Avoid X (sync ro s) := by
  rw [sync]
  apply avoid_syncFold
  · intro du hdu
    rcases List.mem_map.mp hdu with ⟨d0, hd0, rfl⟩
    intro hcon
    exact hX (hcon ▸ mem_uuids hd0)
  · exact avoid_wipe X s

theorem lookup_obs_find (s : Store) (u : String) :
    (lookup s u).map obs = List.find? (fun t => t.1 = u) (s.map obs) := by
  induction s with
  | nil => rfl
  | cons d s ih =>
    rw [lookup, List.find?_cons, List.map_cons, List.find?_cons]
    have : (decide ((obs d).1 = u)) = (decide (d.uuid = u)) := rfl
    rw [this]
    cases hd : (decide (d.uuid = u)) with
    | true => rfl
    | false => exact ih

theorem lookup_obs_cong {sx sy : Store} (h : sx.map obs = sy.map obs) (u : String) :
    (lookup sx u).map obs = (lookup sy u).map obs := by
  rw [lookup_obs_find, lookup_obs_find, h]

theorem obs_lookup_cases {sx sy : Store} (h : sx.map obs = sy.map obs) (u : String) :
    (lookup sx u = none ∧ lookup sy u = none) ∨
      ∃ dx dy, lookup sx u = some dx ∧ lookup sy u = some dy ∧ obs dx = obs dy := by
  have hc := lookup_obs_cong h u
  cases hx : lookup sx u with
  | none =>
    cases hy : lookup sy u with
    | none => exact Or.inl ⟨rfl, rfl⟩
    | some dy =>
      rw [hx, hy] at hc
      exact absurd hc (by simp)
  | some dx =>
    cases hy : lookup sy u with
    | none =>
      rw [hx, hy] at hc
      exact absurd hc (by simp)
    | some dy =>
      rw [hx, hy] at hc
      refine Or.inr ⟨dx, dy, rfl, rfl, ?_⟩
      simpa using hc

theorem refByOf_cong {sx sy : Store} (h : sx.map obs = sy.map obs) (u : String) :
    refByOf sx u = refByOf sy u := by
  rcases obs_lookup_cases h u with ⟨hx, hy⟩ | ⟨dx, dy, hx, hy, ho⟩
  · rw [refByOf, refByOf, hx, hy]
  · rw [refByOf, refByOf, hx, hy]
    exact congrArg (fun t => t.2.2.2) ho

theorem contentOf_cong {sx sy : Store} (h : sx.map obs = sy.map obs) (u : String) :
    contentOf sx u = contentOf sy u := by
  rcases obs_lookup_cases h u with ⟨hx, hy⟩ | ⟨dx, dy, hx, hy, ho⟩
  · rw [contentOf, contentOf, hx, hy]
  · rw [contentOf, contentOf, hx, hy]
    exact congrArg (fun t => t.2.2.1) ho

theorem lookup_none_cong {sx sy : Store} (h : sx.map obs = sy.map obs) (u : String) :
    lookup sx u = none ↔ lookup sy u = none := by
  rcases obs_lookup_cases h u with ⟨hx, hy⟩ | ⟨dx, dy, hx, hy, ho⟩
  · rw [hx, hy]
  · rw [hx, hy]
    simp

theorem map_obs_setRefs (s : Store) (u : String) (R : List String) :
    (setRefs s u R).map obs = s.map obs := by
  rw [setRefs, List.map_map]
  apply List.map_congr_left
  intro d _
  by_cases h : d.uuid = u <;> simp [h, obs]

theorem map_obs_setRefBy (s : Store) (u : String) (L : List (String × List String)) :
    (setRefBy s u L).map obs =
      (s.map obs).map (fun t => if t.1 = u then (t.1, t.2.1, t.2.2.1, L) else t) := by
  rw [setRefBy, List.map_map, List.map_map]
  apply List.map_congr_left
  intro d _
  simp only [Function.comp_apply]
  by_cases h : d.uuid = u
  · rw [if_pos h, if_pos (show (obs d).1 = u from h)]
    rfl
  · rw [if_neg h, if_neg (show ¬(obs d).1 = u from h)]

theorem map_obs_setRefBy_cong {sx sy : Store} (h : sx.map obs = sy.map obs) (u : String)
    (L : List (String × List String)) :
    (setRefBy sx u L).map obs = (setRefBy sy u L).map obs := by
  rw [map_obs_setRefBy, map_obs_setRefBy, h]

theorem addStep_snd (a ty : String) (ex : List String) (acc : Store × List String)
    (r : String) : (addStep a ty ex acc r).2 = dedupStep acc.2 (resolveRef a ty r) := by
  rw [addStep, dedupStep]
  by_cases h1 : resolveRef a ty r ∈ acc.2
  · rw [if_pos h1, if_pos h1]
  · rw [if_neg h1, if_neg h1]
    dsimp only
    by_cases h2 : resolveRef a ty r ∈ ex
    · rw [if_pos h2]
    · rw [if_neg h2]
      cases hl : lookup acc.1 (resolveRef a ty r) with
      | none => rfl
      | some referenced =>
        dsimp only
        by_cases h3 : a ∈ getBucket referenced.referencedBy ty
        · rw [if_pos h3]
        · rw [if_neg h3]

theorem addStep_obs_cong (a ty : String) (ex : List String) {sx sy : Store}
    (h : sx.map obs = sy.map obs) (up : List String) (r : String) :
    (addStep a ty ex (sx, up) r).1.map obs = (addStep a ty ex (sy, up) r).1.map obs := by
  rw [addStep, addStep]
  by_cases h1 : resolveRef a ty r ∈ up
  · rw [if_pos h1, if_pos h1]
    exact h
  · rw [if_neg h1, if_neg h1]
    dsimp only
    by_cases h2 : resolveRef a ty r ∈ ex
    · rw [if_pos h2, if_pos h2]
      exact h
    · rw [if_neg h2, if_neg h2]
      rcases obs_lookup_cases h (resolveRef a ty r) with ⟨hx, hy⟩ | ⟨dx, dy, hx, hy, ho⟩
      · rw [hx, hy]
        exact h
      · rw [hx, hy]
        dsimp only
        have hrb : dx.referencedBy = dy.referencedBy := congrArg (fun t => t.2.2.2) ho
        rw [hrb]
        by_cases h3 : a ∈ getBucket dy.referencedBy ty
        · rw [if_pos h3, if_pos h3]
          exact h
        · rw [if_neg h3, if_neg h3]
          exact map_obs_setRefBy_cong h _ _

theorem addFold_obs_cong (a ty : String) (ex : List String) :
    ∀ (refs : List String) {sx sy : Store} (up : List String),
      sx.map obs = sy.map obs →
      (refs.foldl (addStep a ty ex) (sx, up)).1.map obs =
        (refs.foldl (addStep a ty ex) (sy, up)).1.map obs := by
  intro refs
  induction refs with
  | nil => intro sx sy up h; exact h
  | cons r refs ih =>
    intro sx sy up h
    rw [List.foldl_cons, List.foldl_cons]
    have hsnd : (addStep a ty ex (sx, up) r).2 = (addStep a ty ex (sy, up) r).2 := by
      rw [addStep_snd, addStep_snd]
    have hfst := addStep_obs_cong a ty ex h up r
    have hx : addStep a ty ex (sx, up) r =
        ((addStep a ty ex (sx, up) r).1, (addStep a ty ex (sx, up) r).2) := rfl
    have hy : addStep a ty ex (sy, up) r =
        ((addStep a ty ex (sy, up) r).1, (addStep a ty ex (sy, up) r).2) := rfl
    rw [hx, hy, hsnd]
    exact ih _ hfst

theorem update_obs_cong (ro : Bool) {sx sy : Store} (u ty c : String)
    (h : sx.map obs = sy.map obs) (hx : refsOf sx u = []) (hy : refsOf sy u = []) :
    (update ro sx u ty c true).map obs = (update ro sy u ty c true).map obs := by
  have hg : ¬(true = false ∧ ro = false) := by simp
  rw [update, if_neg hg, update, if_neg hg]
  dsimp only
  rw [hx, hy]
  simp only [List.filter_nil, List.foldl_nil]
  rw [map_obs_setRefs, map_obs_setRefs]
  have h2 := addFold_obs_cong u ty [] (references c) [] h
  have hsndx := addFold_snd u ty [] (references c) sx []
  have hsndy := addFold_snd u ty [] (references c) sy []
  exact h2

theorem contentOf_setRefs (z : Store) (u : String) (R : List String) (w : String) :
    contentOf (setRefs z u R) w = contentOf z w := by
  rw [contentOf, lookup_setRefs, contentOf]
  cases h : lookup z w with
  | none => rfl
  | some d => by_cases hd : d.uuid = u <;> simp [hd]

theorem map_uuidrefs_transport {α : Type} (f : String → List String → α) :
    ∀ (w z : Store), w.map essence = z.map essence →
      w.map Doc.references = z.map Doc.references →
      w.map (fun d => f d.uuid d.references) = z.map (fun d => f d.uuid d.references) := by
  intro w
  induction w with
  | nil =>
    intro z he _
    cases z with
    | nil => rfl
    | cons d z => simp at he
  | cons d w ih =>
    intro z he hr
    cases z with
    | nil => simp at he
    | cons d2 z2 =>
      simp only [List.map_cons, List.cons.injEq] at he hr ⊢
      refine ⟨?_, ih z2 he.2 hr.2⟩
      have hu : d.uuid = d2.uuid := congrArg Prod.fst he.1
      rw [hu, hr.1]

theorem map_references_setRefs (z : Store) (u : String) (R : List String) :
    (setRefs z u R).map Doc.references =
      z.map (fun d => if d.uuid = u then R else d.references) := by
  rw [setRefs, List.map_map]
  apply List.map_congr_left
  intro d _
  simp only [Function.comp_apply]
  by_cases h : d.uuid = u
  · rw [if_pos h, if_pos h]
  · rw [if_neg h, if_neg h]

theorem map_references_update (ro : Bool) (z : Store) (u ty c : String) :
    (update ro z u ty c true).map Doc.references =
      z.map (fun d => if d.uuid = u then newRefs u ty c else d.references) := by
  have hg : ¬(true = false ∧ ro = false) := by simp
  rw [update, if_neg hg]
  dsimp only
  rw [addFold_snd]
  rw [show List.foldl dedupStep [] ((references c).map (resolveRef u ty)) =
        newRefs u ty c from rfl]
  rw [map_references_setRefs]
  apply map_uuidrefs_transport (fun x y => if x = u then newRefs u ty c else y)
  · rw [map_essence_removeFold, map_essence_addFold]
  · rw [map_references_removeFold, map_references_addFold]

theorem map_mask_setRefs (z : Store) (u : String) (R A : List String) :
    (setRefs z u R).map (fun d => if d.uuid = u then A else d.references) =
      z.map (fun d => if d.uuid = u then A else d.references) := by
  rw [setRefs, List.map_map]
  apply List.map_congr_left
  intro d _
  simp only [Function.comp_apply]
  by_cases h : d.uuid = u
  · rw [if_pos h, if_pos h, if_pos h]
  · rw [if_neg h, if_neg h]

theorem syncStep_obs_cong (ro : Bool) {zx zy : Store} (h : zx.map obs = zy.map obs)
    (du : String × String) :
    (syncStep ro zx du).map obs = (syncStep ro zy du).map obs := by
  rw [syncStep, syncStep]
  have hw : (setRefs zx du.1 []).map obs = (setRefs zy du.1 []).map obs := by
    rw [map_obs_setRefs, map_obs_setRefs, h]
  have hc : (lookup (setRefs zx du.1 []) du.1).elim "" Doc.content =
      (lookup (setRefs zy du.1 []) du.1).elim "" Doc.content :=
    contentOf_cong hw du.1
  rw [hc]
  by_cases hcc : (lookup (setRefs zy du.1 []) du.1).elim "" Doc.content = ""
  · rw [if_pos hcc, if_pos hcc]
    exact hw
  · rw [if_neg hcc, if_neg hcc]
    exact update_obs_cong ro du.1 du.2 _ hw (refsOf_setRefs_nil zx du.1)
      (refsOf_setRefs_nil zy du.1)

theorem getElem?_map_eq {α β γ : Type} {f : α → γ} {g : β → γ} {lx : List α}
    {ly : List β} (h : lx.map f = ly.map g) (i : Nat) :
    (lx[i]?).map f = (ly[i]?).map g := by
  rw [← List.getElem?_map, ← List.getElem?_map, h]

theorem syncStep_refs_mask (ro : Bool) (z : Store) (u ty2 : String) :
    (syncStep ro z (u, ty2)).map Doc.references =
      z.map (fun d => if d.uuid = u then
        (if contentOf (setRefs z u []) u = "" then []
         else newRefs u ty2 (contentOf (setRefs z u []) u)) else d.references) := by
  rw [syncStep]
  by_cases hcc : (lookup (setRefs z u []) u).elim "" Doc.content = ""
  · rw [if_pos hcc]
    rw [map_references_setRefs]
    apply List.map_congr_left
    intro d _
    by_cases hd : d.uuid = u
    · rw [if_pos hd, if_pos hd, if_pos (show contentOf (setRefs z u []) u = "" from hcc)]
    · rw [if_neg hd, if_neg hd]
  · rw [if_neg hcc]
    rw [map_references_update, map_mask_setRefs]
    apply List.map_congr_left
    intro d _
    by_cases hd : d.uuid = u
    · rw [if_pos hd, if_pos hd,
        if_neg (show ¬contentOf (setRefs z u []) u = "" from hcc)]
      rfl
    · rw [if_neg hd, if_neg hd]

theorem syncStep_refsAgree (ro : Bool) {zx zy : Store} (h : zx.map obs = zy.map obs)
    (P : List String) (hP : RefsAgree P zx zy) (u ty2 : String) :
    RefsAgree (u :: P) (syncStep ro zx (u, ty2)) (syncStep ro zy (u, ty2)) := by
  intro i dx dy hxi hyi hmem
  have hw : (setRefs zx u []).map obs = (setRefs zy u []).map obs := by
    rw [map_obs_setRefs, map_obs_setRefs, h]
  have hc : contentOf (setRefs zx u []) u = contentOf (setRefs zy u []) u :=
    contentOf_cong hw u
  set A : List String :=
    (if contentOf (setRefs zy u []) u = "" then []
     else newRefs u ty2 (contentOf (setRefs zy u []) u)) with hA
  have hX : (syncStep ro zx (u, ty2)).map Doc.references =
      zx.map (fun d => if d.uuid = u then A else d.references) := by
    rw [syncStep_refs_mask, hA, hc]
  have hY : (syncStep ro zy (u, ty2)).map Doc.references =
      zy.map (fun d => if d.uuid = u then A else d.references) := by
    rw [syncStep_refs_mask, hA]
  -- recover the pre-step documents at index i
  have hex : (zx[i]?).map essence = ((syncStep ro zx (u, ty2))[i]?).map essence :=
    (getElem?_map_eq (map_essence_syncStep ro zx (u, ty2)) i).symm
  have hey : (zy[i]?).map essence = ((syncStep ro zy (u, ty2))[i]?).map essence :=
    (getElem?_map_eq (map_essence_syncStep ro zy (u, ty2)) i).symm
  rw [hxi] at hex
  rw [hyi] at hey
  obtain ⟨dx0, hx0, hex0⟩ : ∃ dx0, zx[i]? = some dx0 ∧ essence dx0 = essence dx := by
    cases hz : zx[i]? with
    | none => rw [hz] at hex; simp at hex
    | some d0 =>
      rw [hz] at hex
      refine ⟨d0, rfl, ?_⟩
      have h2 : some (essence d0) = some (essence dx) := by simpa using hex
      injection h2
  obtain ⟨dy0, hy0, hey0⟩ : ∃ dy0, zy[i]? = some dy0 ∧ essence dy0 = essence dy := by
    cases hz : zy[i]? with
    | none => rw [hz] at hey; simp at hey
    | some d0 =>
      rw [hz] at hey
      refine ⟨d0, rfl, ?_⟩
      have h2 : some (essence d0) = some (essence dy) := by simpa using hey
      injection h2
  -- references of the results from the masks
  have hxr : dx.references = (if dx0.uuid = u then A else dx0.references) := by
    have h2 := getElem?_map_eq hX i
    rw [hxi, hx0] at h2
    simpa using h2
  have hyr : dy.references = (if dy0.uuid = u then A else dy0.references) := by
    have h2 := getElem?_map_eq hY i
    rw [hyi, hy0] at h2
    simpa using h2
  -- the two pre-step documents share their observable part
  have hobs0 : obs dx0 = obs dy0 := by
    have := getElem?_map_eq h i
    rw [hx0, hy0] at this
    simpa using this
  have huu : dx0.uuid = dy0.uuid := congrArg (fun t => t.1) hobs0
  have hux : dx.uuid = dx0.uuid := (congrArg (fun t => t.1) hex0).symm
  by_cases hu : dx0.uuid = u
  · rw [hxr, if_pos hu, hyr, if_pos (huu ▸ hu)]
  · have hr0 : dx0.references = dy0.references := by
      apply hP i dx0 dy0 hx0 hy0
      rcases List.mem_cons.mp hmem with hcase | hcase
      · exact absurd (by rw [← hux]; exact hcase) hu
      · rw [hux] at hcase
        exact hcase
    rw [hxr, if_neg hu, hyr, if_neg (huu ▸ hu), hr0]

theorem syncFold_main (ro : Bool) :
    ∀ (L : List (String × String)) {zx zy : Store} (P : List String),
      zx.map obs = zy.map obs → RefsAgree P zx zy →
      (L.foldl (syncStep ro) zx).map obs = (L.foldl (syncStep ro) zy).map obs ∧
        RefsAgree (P ++ L.map Prod.fst) (L.foldl (syncStep ro) zx)
          (L.foldl (syncStep ro) zy) := by
  intro L
  induction L with
  | nil =>
    intro zx zy P h hP
    rw [List.map_nil, List.append_nil]
    exact ⟨h, hP⟩
  | cons du L ih =>
    intro zx zy P h hP
    rw [List.foldl_cons, List.foldl_cons]
    have h1 := syncStep_obs_cong ro h du
    have h2 : RefsAgree (du.1 :: P) (syncStep ro zx du) (syncStep ro zy du) := by
      have h3 := syncStep_refsAgree ro h P hP du.1 du.2
      exact h3
    have hmain := ih (du.1 :: P) h1 h2
    refine ⟨hmain.1, ?_⟩
    intro i dx dy hx hy hmem
    apply hmain.2 i dx dy hx hy
    simp only [List.map_cons, List.mem_append, List.mem_cons] at hmem ⊢
    tauto

theorem store_eq_of_obs_refs :
    ∀ (sx sy : Store), sx.map obs = sy.map obs →
      (∀ (i : Nat) (dx dy : Doc), sx[i]? = some dx → sy[i]? = some dy →
        dx.references = dy.references) →
      sx = sy := by
  intro sx
  induction sx with
  | nil =>
    intro sy h _
    cases sy with
    | nil => rfl
    | cons d sy => simp at h
  | cons d sx ih =>
    intro sy h hr
    cases sy with
    | nil => simp at h
    | cons d2 sy2 =>
      simp only [List.map_cons, List.cons.injEq] at h
      have hd : d = d2 := by
        have hobs := h.1
        have hrefs := hr 0 d d2 (by simp) (by simp)
        cases d
        cases d2
        simp only [obs, Prod.mk.injEq] at hobs
        simp only at hrefs
        simp [hobs.1, hobs.2.1, hobs.2.2.1, hobs.2.2.2, hrefs]
      rw [hd]
      rw [ih sy2 h.2 (fun i dx dy hx hy => hr (i + 1) dx dy
        (by rw [List.getElem?_cons_succ]; exact hx)
        (by rw [List.getElem?_cons_succ]; exact hy))]

theorem sync_idem (ro : Bool) (s : Store) : sync ro (sync ro s) = sync ro s := by
  have hess : (sync ro s).map essence = s.map essence := map_essence_sync ro s
  have hdu : (sync ro s).map (fun d => (d.uuid, d.dtype)) =
      s.map (fun d => (d.uuid, d.dtype)) := by
    have h1 : ∀ z : Store, z.map (fun d => (d.uuid, d.dtype)) =
        (z.map essence).map (fun e => (e.1, e.2.1)) := by
      intro z
      rw [List.map_map]
      rfl
    rw [h1, h1, hess]
  have hwipe : (List.map (fun d => { d with referencedBy := [] }) (sync ro s)).map obs =
      (List.map (fun d => { d with referencedBy := [] }) s).map obs := by
    have h1 : ∀ z : Store, (List.map (fun d => { d with referencedBy := [] }) z).map obs =
        (z.map essence).map
          (fun e => (e.1, e.2.1, e.2.2, ([] : List (String × List String)))) := by
      intro z
      rw [List.map_map, List.map_map]
      apply List.map_congr_left
      intro d _
      rfl
    rw [h1, h1, hess]
  have hmain := syncFold_main ro (s.map (fun d => (d.uuid, d.dtype))) ([])
    hwipe (by intro i dx dy _ _ hmem; simp at hmem)
  conv_lhs => rw [sync]
  rw [hdu]
  conv_rhs => rw [sync]
  apply store_eq_of_obs_refs _ _ hmain.1
  intro i dx dy hx hy
  apply hmain.2 i dx dy hx hy
  have hdmem : dx ∈ (s.map (fun d => (d.uuid, d.dtype))).foldl (syncStep ro)
      (List.map (fun d => { d with referencedBy := [] }) (sync ro s)) := by
    exact List.getElem?_mem hx
  have huu : dx.uuid ∈ uuids ((s.map (fun d => (d.uuid, d.dtype))).foldl (syncStep ro)
      (List.map (fun d => { d with referencedBy := [] }) (sync ro s))) := mem_uuids hdmem
  have hpres : uuids ((s.map (fun d => (d.uuid, d.dtype))).foldl (syncStep ro)
      (List.map (fun d => { d with referencedBy := [] }) (sync ro s))) = uuids s := by
    apply uuids_eq_of_essence
    rw [map_essence_syncFold, map_essence_wipe, hess]
  rw [hpres] at huu
  simp only [List.nil_append, List.map_map]
  have : (s.map (fun d => (d.uuid, d.dtype))).map Prod.fst = uuids s := by
    rw [List.map_map]
    rfl
  rw [← List.map_map]
  rw [this]
  exact huu
end JB

namespace Warp

theorem newtonLoop_bounds (target : ℝ) :
    ∀ (n : Nat) (w : ℝ), 1 ≤ newtonLoop target n w ∧ newtonLoop target n w ≤ 9.99 := by
  intro n
  induction n with
  | zero =>
    intro w
    constructor
    · exact le_min (le_max_right w 1) (by norm_num)
    · exact min_le_right _ _
  | succ n ih =>
    intro w
    rw [newtonLoop]
    dsimp only
    split
    · exact ⟨le_min (le_max_right w 1) (by norm_num), min_le_right _ _⟩
    · split
      · exact ⟨le_min (le_max_right w 1) (by norm_num), min_le_right _ _⟩
      · exact ih _

theorem interp_isSome (w : ℝ) :
    ∀ (p q : ℚ × ℚ) (rest : List (ℚ × ℚ)),
      (p.1 : ℝ) ≤ w → w ≤ (((q :: rest).getLast (List.cons_ne_nil _ _)).1 : ℝ) →
      (interpSegments (p :: q :: rest) w).isSome := by
  intro p q rest
  induction rest generalizing p q with
  | nil =>
    intro h1 h2
    simp only [List.getLast] at h2
    simp [interpSegments, h1, h2]
  | cons r rest ih =>
    intro h1 h2
    by_cases hw : w ≤ (q.1 : ℝ)
    · simp [interpSegments, h1, hw]
    · have h1b : (q.1 : ℝ) ≤ w := le_of_not_le hw
      have h2b : w ≤ (((r :: rest).getLast (List.cons_ne_nil _ _)).1 : ℝ) := by
        rwa [List.getLast_cons (List.cons_ne_nil _ _)] at h2
      have hrec := ih q r h1b h2b
      simp only [interpSegments]
      rw [if_neg]
      · exact hrec
      · rintro ⟨-, hc⟩
        exact hw hc

end Warp

/-- Claim C9: at warp factor exactly 9.5 the higher-order (TNG) conversion
returns the table's documented sample value 1894.85 exactly, because 9.5
is itself a table row and linear interpolation at a knot reproduces the
knot's value. -/
theorem warp_nine_point_five_exact :
    Warp.warpToSpeedMultiplier (9.5 : ℝ) = ((1894.85 : ℝ) : EReal) := by
  rw [Warp.warpToSpeedMultiplier, Warp.warpToSpeedF, Warp.findSpeedAbove9]
  norm_num [Warp.TNG_SPEED_TABLE, Warp.interpSegments]

/-- Claim C8: the fixed TNG interpolation table is strictly increasing in both
columns, and every warp-factor query within `[9.0, 9.99]` is bracketed by
two adjacent samples, so the interpolation loop of `findSpeedAbove9`
always finds a bracketing pair for such inputs. -/
theorem tng_table_invariant :
    List.Chain' (fun a b => a < b) (Warp.TNG_SPEED_TABLE.map Prod.fst) ∧
    List.Chain' (fun a b => a < b) (Warp.TNG_SPEED_TABLE.map Prod.snd) ∧
    ∀ w : ℝ, 9 ≤ w → w ≤ 9.99 →
      (Warp.interpSegments Warp.TNG_SPEED_TABLE w).isSome := by
  refine ⟨?_, ?_, ?_⟩
  · norm_num [Warp.TNG_SPEED_TABLE, List.chain'_cons]
  · norm_num [Warp.TNG_SPEED_TABLE, List.chain'_cons]
  · intro w h1 h2
    rw [Warp.TNG_SPEED_TABLE]
    apply Warp.interp_isSome
    · push_cast
      linarith
    · norm_num
      linarith

/-- Witness for `tng_table_invariant` at the concrete query 9.5. -/
theorem tng_table_invariant_witness :
    ((9 : ℝ) ≤ 9.5 ∧ (9.5 : ℝ) ≤ 9.99) ∧
      (Warp.interpSegments Warp.TNG_SPEED_TABLE (9.5 : ℝ)).isSome :=
  ⟨⟨by norm_num, by norm_num⟩, tng_table_invariant.2.2 9.5 (by norm_num) (by norm_num)⟩

/-- Claim C4: for every finite speed multiplier at least 1, the inverse
conversion returns a numeric warp factor clamped into `[1, 9.99]` within
the fixed 50-iteration cap — never the `null` sentinel. -/
theorem speed_to_warp_total_clamped (s : ℝ) (hs : 1 ≤ s) :
    ∃ r, Warp.speedMultiplierToWarp (s : EReal) = some r ∧ 1 ≤ r ∧ r ≤ 9.99 := by
  rw [Warp.speedMultiplierToWarp]
  have h0 : ¬((s : EReal) ≤ 0) := by
    rw [not_le]
    exact_mod_cast lt_of_lt_of_le zero_lt_one hs
  have h1 : ¬((s : EReal) < 1) := by
    rw [not_lt]
    exact_mod_cast hs
  have h2 : (s : EReal) ≠ ⊤ := EReal.coe_ne_top s
  rw [if_neg h0, if_neg h1, if_neg h2]
  refine ⟨_, rfl, ?_⟩
  exact Warp.newtonLoop_bounds _ 50 _

/-- Witness for `speed_to_warp_total_clamped` at speed multiplier 8. -/
theorem speed_to_warp_total_clamped_witness :
    (1 : ℝ) ≤ 8 ∧ ∃ r, Warp.speedMultiplierToWarp ((8 : ℝ) : EReal) = some r ∧
      1 ≤ r ∧ r ≤ 9.99 :=
  ⟨by norm_num, speed_to_warp_total_clamped 8 (by norm_num)⟩

/-- Claim C3: for every warp factor in `[1, 9]`, converting to a speed
multiplier with the higher-order model and back with the Newton-Raphson
inverse recovers the warp factor within `1e-6` (in the real-number model
the initial guess is already exact, so the solver converges on its first
residual check). -/
theorem warp_forward_inverse_roundtrip (w : ℝ) (hw1 : 1 ≤ w) (hw9 : w ≤ 9) :
    ∃ r, Warp.speedMultiplierToWarp (Warp.warpToSpeedMultiplier w) = some r ∧
      |r - w| ≤ 1e-6 := by
  have hw0 : (0 : ℝ) ≤ w := le_trans zero_le_one hw1
  have hfw : Warp.warpToSpeedF w = w ^ ((10 : ℝ) / 3) := by
    rw [Warp.warpToSpeedF, if_neg (not_lt.mpr hw1), if_pos hw9]
  have hmul : Warp.warpToSpeedMultiplier w = ((w ^ ((10 : ℝ) / 3) : ℝ) : EReal) := by
    rw [Warp.warpToSpeedMultiplier, if_neg (not_lt.mpr hw1),
      if_neg (by linarith : ¬(10 : ℝ) ≤ w), hfw]
  set t := w ^ ((10 : ℝ) / 3) with ht
  have ht1 : 1 ≤ t := by
    calc (1 : ℝ) = 1 ^ ((10 : ℝ) / 3) := (Real.one_rpow _).symm
    _ ≤ t := Real.rpow_le_rpow zero_le_one hw1 (by norm_num)
  have hguess : t ^ ((3 : ℝ) / 10) = w := by
    rw [ht, ← Real.rpow_mul hw0]
    norm_num
  have hloop : Warp.newtonLoop t 50 w = w := by
    rw [Warp.newtonLoop]
    dsimp only
    rw [if_pos (by rw [hfw]; simp; norm_num : |Warp.warpToSpeedF w - t| < 1e-9)]
    rw [max_eq_left hw1, min_eq_left (by linarith : w ≤ 9.99)]
  refine ⟨w, ?_, by simp; norm_num⟩
  rw [hmul, Warp.speedMultiplierToWarp]
  have h0 : ¬((t : EReal) ≤ 0) := by
    rw [not_le]
    exact_mod_cast lt_of_lt_of_le zero_lt_one ht1
  have h1 : ¬((t : EReal) < 1) := by
    rw [not_lt]
    exact_mod_cast ht1
  rw [if_neg h0, if_neg h1, if_neg (EReal.coe_ne_top t)]
  dsimp only
  rw [EReal.toReal_coe, hguess, if_neg (by push_neg; linarith : ¬w > 9.99), hloop]

/-- Witness for `warp_forward_inverse_roundtrip` at warp factor 2. -/
theorem warp_forward_inverse_roundtrip_witness :
    (1 : ℝ) ≤ 2 ∧ (2 : ℝ) ≤ 9 ∧
      ∃ r, Warp.speedMultiplierToWarp (Warp.warpToSpeedMultiplier 2) = some r ∧
        |r - 2| ≤ 1e-6 :=
  ⟨by norm_num, by norm_num, warp_forward_inverse_roundtrip 2 (by norm_num) (by norm_num)⟩

/-- Claim C5 counterexample: with zero distance and positive time the code
returns the `null` sentinel (`none`), not a numeric warp factor at most 1:
the implied speed multiplier 0 is rejected by the non-positive input
guard of `speedMultiplierToWarp`. -/
theorem calculateWarpFactor_zero_distance_cex :
    Warp.calculateWarpFactor 0 1 = none := by
  rw [Warp.calculateWarpFactor]
  norm_num
  rw [Warp.speedMultiplierToWarp]
  norm_num

/-- Claim C5 (amended): `calculateWarpFactor(0, t)` with positive `t` yields the
`null` sentinel (no warp factor) rather than a sub-light value, and
`calculateTime` with a warp factor whose resulting speed multiplier is
zero returns infinite time. -/
theorem zero_distance_and_zero_speed_behavior :
    (∀ t : ℝ, 0 < t → Warp.calculateWarpFactor 0 t = none) ∧
    (∀ w d : ℝ, Warp.warpToSpeedMultiplier w = ((0 : ℝ) : EReal) →
      Warp.calculateTime w d = ⊤) := by
  constructor
  · intro t ht
    rw [Warp.calculateWarpFactor, if_neg (not_le.mpr ht)]
    simp only [zero_div]
    rw [Warp.speedMultiplierToWarp]
    norm_num
  · intro w d hw
    rw [Warp.calculateTime, hw]
    simp only [EReal.coe_zero, zero_mul]
    rw [if_pos le_rfl]

/-- Witness for `zero_distance_and_zero_speed_behavior` at `t = 2`,
`w = 0`, `d = 5`. -/
theorem zero_distance_and_zero_speed_behavior_witness :
    ((0 : ℝ) < 2 ∧ Warp.calculateWarpFactor 0 2 = none) ∧
      (Warp.warpToSpeedMultiplier 0 = ((0 : ℝ) : EReal) ∧
        Warp.calculateTime 0 5 = ⊤) := by
  have hw0 : Warp.warpToSpeedMultiplier 0 = ((0 : ℝ) : EReal) := by
    rw [Warp.warpToSpeedMultiplier]
    norm_num
  exact ⟨⟨by norm_num, zero_distance_and_zero_speed_behavior.1 2 (by norm_num)⟩,
    ⟨hw0, zero_distance_and_zero_speed_behavior.2 0 5 hw0⟩⟩

/-- Claim C1: when document `a`'s content contains a link marker resolving to an
existing document `b`, the incremental update records `a` in `b`'s
per-kind incoming bucket; a subsequent update of `a` with content from
which the link is gone removes `a` from that bucket again (deleting the
bucket when it becomes empty).  The two consistency hypotheses say the
starting flags are not already corrupted at the pair `(a, b)`: if `a`'s
stored outgoing set already lists `b` then `b`'s bucket lists `a`, and
`b`'s bucket lists `a` at most once. -/
theorem backlink_roundtrip (ro force : Bool) (s : JB.Store) (a ty c c2 b : String)
    (hgate : ¬(force = false ∧ ro = false))
    (ha : (JB.lookup s a).isSome) (hb : (JB.lookup s b).isSome)
    (hlink : b ∈ JB.resolvedRefs a ty c)
    (hunlink : ¬b ∈ JB.resolvedRefs a ty c2)
    (hcons : b ∈ JB.refsOf s a → a ∈ JB.bucketOf s b ty)
    (honce : (JB.bucketOf s b ty).count a ≤ 1) :
    a ∈ JB.bucketOf (JB.update ro s a ty c force) b ty ∧
      ¬a ∈ JB.bucketOf
        (JB.update ro (JB.update ro s a ty c force) a ty c2 force) b ty ∧
      (JB.bucketOf (JB.update ro (JB.update ro s a ty c force) a ty c2 force) b ty = [] →
        JB.hasBucket
          (JB.refByOf (JB.update ro (JB.update ro s a ty c force) a ty c2 force) b)
          ty = false) := by
  have h1 := JB.update_bucket_add ro s a ty c force b hgate hb hlink hcons honce
  have hb1 : (JB.lookup (JB.update ro s a ty c force) b).isSome := by
    rw [JB.isSome_update]
    exact hb
  have hbex : b ∈ JB.refsOf (JB.update ro s a ty c force) a := by
    rw [JB.refsOf_update_self ro s a ty c force hgate ha, JB.newRefs,
      JB.mem_dedupFold]
    exact Or.inr hlink
  have h2 := JB.update_bucket_remove ro (JB.update ro s a ty c force) a ty c2 force b
    hgate hb1 hbex hunlink h1.2
  exact ⟨h1.1, List.count_eq_zero.mp h2.1, h2.2⟩

/-- Witness for `backlink_roundtrip` on a two-document store where
`Actor.a` first links to `Actor.b` and then does not. -/
theorem backlink_roundtrip_witness :
    (¬(true = false ∧ true = false)) ∧
    (JB.lookup [⟨"Actor.a", "Actor", "", [], []⟩, ⟨"Actor.b", "Actor", "", [], []⟩]
      "Actor.a").isSome ∧
    (JB.lookup [⟨"Actor.a", "Actor", "", [], []⟩, ⟨"Actor.b", "Actor", "", [], []⟩]
      "Actor.b").isSome ∧
    "Actor.b" ∈ JB.resolvedRefs "Actor.a" "Actor" "see @UUID[Actor.b]" ∧
    (¬"Actor.b" ∈ JB.resolvedRefs "Actor.a" "Actor" "no links here") ∧
    ("Actor.a" ∈ JB.bucketOf
      (JB.update true [⟨"Actor.a", "Actor", "", [], []⟩, ⟨"Actor.b", "Actor", "", [], []⟩]
        "Actor.a" "Actor" "see @UUID[Actor.b]" true) "Actor.b" "Actor" ∧
      ¬"Actor.a" ∈ JB.bucketOf
        (JB.update true
          (JB.update true
            [⟨"Actor.a", "Actor", "", [], []⟩, ⟨"Actor.b", "Actor", "", [], []⟩]
            "Actor.a" "Actor" "see @UUID[Actor.b]" true)
          "Actor.a" "Actor" "no links here" true) "Actor.b" "Actor" ∧
      (JB.bucketOf
          (JB.update true
            (JB.update true
              [⟨"Actor.a", "Actor", "", [], []⟩, ⟨"Actor.b", "Actor", "", [], []⟩]
              "Actor.a" "Actor" "see @UUID[Actor.b]" true)
            "Actor.a" "Actor" "no links here" true) "Actor.b" "Actor" = [] →
        JB.hasBucket
          (JB.refByOf
            (JB.update true
              (JB.update true
                [⟨"Actor.a", "Actor", "", [], []⟩, ⟨"Actor.b", "Actor", "", [], []⟩]
                "Actor.a" "Actor" "see @UUID[Actor.b]" true)
              "Actor.a" "Actor" "no links here" true) "Actor.b") "Actor" = false)) :=
  ⟨by decide, by decide, by decide, by decide, by decide,
    backlink_roundtrip true true
      [⟨"Actor.a", "Actor", "", [], []⟩, ⟨"Actor.b", "Actor", "", [], []⟩]
      "Actor.a" "Actor" "see @UUID[Actor.b]" "no links here" "Actor.b"
      (by decide) (by decide) (by decide) (by decide) (by decide) (by decide)
      (by decide)⟩

/-- Claim C2: the backlink maintenance is idempotent — running the incremental
update twice with the same content equals running it once, and running
the full rebuild twice produces the identical flag state. -/
theorem backlink_idempotent (ro : Bool) (s : JB.Store) (a ty c : String) (force : Bool)
    (ha : (JB.lookup s a).isSome) :
    JB.update ro (JB.update ro s a ty c force) a ty c force =
      JB.update ro s a ty c force ∧
    JB.sync ro (JB.sync ro s) = JB.sync ro s :=
  ⟨JB.update_idem ro s a ty c force ha, JB.sync_idem ro s⟩

/-- Witness for `backlink_idempotent` on a two-document store. -/
theorem backlink_idempotent_witness :
    (JB.lookup [⟨"Actor.a", "Actor", "see @UUID[Actor.b]", [], []⟩,
      ⟨"Actor.b", "Actor", "", [], []⟩] "Actor.a").isSome ∧
    (JB.update true
        (JB.update true
          [⟨"Actor.a", "Actor", "see @UUID[Actor.b]", [], []⟩,
            ⟨"Actor.b", "Actor", "", [], []⟩]
          "Actor.a" "Actor" "see @UUID[Actor.b]" false)
        "Actor.a" "Actor" "see @UUID[Actor.b]" false =
      JB.update true
        [⟨"Actor.a", "Actor", "see @UUID[Actor.b]", [], []⟩,
          ⟨"Actor.b", "Actor", "", [], []⟩]
        "Actor.a" "Actor" "see @UUID[Actor.b]" false) ∧
    (JB.sync true (JB.sync true
        [⟨"Actor.a", "Actor", "see @UUID[Actor.b]", [], []⟩,
          ⟨"Actor.b", "Actor", "", [], []⟩]) =
      JB.sync true
        [⟨"Actor.a", "Actor", "see @UUID[Actor.b]", [], []⟩,
          ⟨"Actor.b", "Actor", "", [], []⟩]) := by
  refine ⟨by decide, ?_, ?_⟩
  · exact (backlink_idempotent true
      [⟨"Actor.a", "Actor", "see @UUID[Actor.b]", [], []⟩,
        ⟨"Actor.b", "Actor", "", [], []⟩]
      "Actor.a" "Actor" "see @UUID[Actor.b]" false (by decide)).1
  · exact (backlink_idempotent true
      [⟨"Actor.a", "Actor", "see @UUID[Actor.b]", [], []⟩,
        ⟨"Actor.b", "Actor", "", [], []⟩]
      "Actor.a" "Actor" "see @UUID[Actor.b]" false (by decide)).2

/-- Claim C6: with a UUID `X` that resolves to no document, the full rebuild and
the incremental update run to completion (they are total functions of the
model, never creating or deleting documents), and the rebuilt reference
graph omits `X` entirely: no document with UUID `X` exists afterwards and
no incoming bucket anywhere mentions `X`. -/
theorem sync_tolerates_unresolved (ro : Bool) (s : JB.Store) (X : String)
    (hX : ¬X ∈ JB.uuids s) :
    JB.uuids (JB.sync ro s) = JB.uuids s ∧
    (∀ d ∈ JB.sync ro s, d.uuid ≠ X) ∧
    (∀ d ∈ JB.sync ro s, ∀ ty, ¬X ∈ JB.getBucket d.referencedBy ty) ∧
    (∀ a ty c force, JB.uuids (JB.update ro s a ty c force) = JB.uuids s) := by
  refine ⟨JB.uuids_sync ro s, ?_, JB.avoid_sync X ro s hX, ?_⟩
  · intro d hd heq
    apply hX
    rw [← heq, ← JB.uuids_sync ro s]
    exact JB.mem_uuids hd
  · intro a ty c force
    exact JB.uuids_update ro s a ty c force

/-- Witness for `sync_tolerates_unresolved` on a store whose single
document links to the nonexistent `Actor.gone`. -/
theorem sync_tolerates_unresolved_witness :
    (¬"Actor.gone" ∈ JB.uuids [⟨"Actor.a", "Actor", "see @UUID[Actor.gone]", [], []⟩]) ∧
    JB.uuids (JB.sync true [⟨"Actor.a", "Actor", "see @UUID[Actor.gone]", [], []⟩]) =
      JB.uuids [⟨"Actor.a", "Actor", "see @UUID[Actor.gone]", [], []⟩] ∧
    (∀ d ∈ JB.sync true [⟨"Actor.a", "Actor", "see @UUID[Actor.gone]", [], []⟩],
      d.uuid ≠ "Actor.gone") ∧
    (∀ d ∈ JB.sync true [⟨"Actor.a", "Actor", "see @UUID[Actor.gone]", [], []⟩],
      ∀ ty, ¬"Actor.gone" ∈ JB.getBucket d.referencedBy ty) := by
  have h := sync_tolerates_unresolved true
    [⟨"Actor.a", "Actor", "see @UUID[Actor.gone]", [], []⟩] "Actor.gone" (by decide)
  exact ⟨by decide, h.1, h.2.1, h.2.2.1⟩

/-- Claim C10: after an un-gated run of the incremental update on an existing
document, the persisted outgoing `references` flag lists each extracted
reference exactly once (no duplicates even when the content repeats a
marker) and retains every extracted reference — including those whose
target UUID does not resolve. -/
theorem update_outgoing_flag (ro force : Bool) (s : JB.Store) (a ty c : String)
    (hgate : ¬(force = false ∧ ro = false)) (ha : (JB.lookup s a).isSome) :
    (JB.refsOf (JB.update ro s a ty c force) a).Nodup ∧
    ∀ r, r ∈ JB.refsOf (JB.update ro s a ty c force) a ↔
      r ∈ JB.resolvedRefs a ty c := by
  rw [JB.refsOf_update_self ro s a ty c force hgate ha]
  constructor
  · exact JB.nodup_dedupFold _ _ List.nodup_nil
  · intro r
    rw [JB.newRefs, JB.mem_dedupFold]
    simp

/-- Witness for `update_outgoing_flag`: content repeating a link to the
nonexistent `Actor.gone` yields it exactly once in the outgoing flag. -/
theorem update_outgoing_flag_witness :
    (¬(true = false ∧ true = false)) ∧
    (JB.lookup [⟨"Actor.a", "Actor", "", [], []⟩] "Actor.a").isSome ∧
    (JB.refsOf (JB.update true [⟨"Actor.a", "Actor", "", [], []⟩] "Actor.a" "Actor"
      "x @UUID[Actor.gone] y @UUID[Actor.gone]" true) "Actor.a").Nodup ∧
    ("Actor.gone" ∈ JB.refsOf (JB.update true [⟨"Actor.a", "Actor", "", [], []⟩]
        "Actor.a" "Actor" "x @UUID[Actor.gone] y @UUID[Actor.gone]" true) "Actor.a" ↔
      "Actor.gone" ∈ JB.resolvedRefs "Actor.a" "Actor"
        "x @UUID[Actor.gone] y @UUID[Actor.gone]") := by
  have h := update_outgoing_flag true true [⟨"Actor.a", "Actor", "", [], []⟩]
    "Actor.a" "Actor" "x @UUID[Actor.gone] y @UUID[Actor.gone]" (by decide) (by decide)
  exact ⟨by decide, by decide, h.1, h.2 "Actor.gone"⟩

/-- Claim C7 counterexample: when the permission predicate raises an exception
for the single referenced entry, the rendering routine does not silently
omit the entry — it propagates the exception (`Except.error`), because
the source contains no handler around `testUserPermission`. -/
theorem render_permission_throw_cex :
    JB.renderLinks [⟨"Actor.a1", "Actor", "", [], []⟩]
      (fun _ => Except.error "boom") [("Actor", ["Actor.a1"])] =
      Except.error "boom" := by
  rfl

/-- Claim C7 (amended): an entry for which the permission predicate returns
`false` is silently omitted from the rendered list, but an exception from
the permission predicate propagates out of the rendering routine instead
of being treated as permission-denied. -/
theorem render_permission_behavior (s : JB.Store) (perm : String → Except String Bool)
    (ty u : String) (vs : List String) (rest : List (String × List String))
    (e : String) (d : JB.Doc) (hu : u ≠ "") (hl : JB.lookup s u = some d) :
    (perm u = Except.error e →
      JB.renderLinks s perm ((ty, u :: vs) :: rest) = Except.error e) ∧
    (perm u = Except.ok false →
      JB.renderLinks s perm ((ty, u :: vs) :: rest) =
        JB.renderLinks s perm ((ty, vs) :: rest)) := by
  constructor
  · intro hp
    rw [JB.renderLinks, JB.renderBucket, if_neg hu, hl, hp]
    rfl
  · intro hp
    rw [JB.renderLinks, JB.renderBucket, if_neg hu, hl, hp, JB.renderLinks]

/-- Witness for `render_permission_behavior` on a one-document store,
with a throwing predicate for the first conjunct and an always-deny
predicate for the second. -/
theorem render_permission_behavior_witness :
    (("Actor.a1" : String) ≠ "" ∧
      JB.lookup [⟨"Actor.a1", "Actor", "", [], []⟩] "Actor.a1" =
        some ⟨"Actor.a1", "Actor", "", [], []⟩) ∧
    ((fun _ => Except.error "err" : String → Except String Bool) "Actor.a1" =
        Except.error "err" ∧
      JB.renderLinks [⟨"Actor.a1", "Actor", "", [], []⟩]
        (fun _ => Except.error "err") [("Actor", ["Actor.a1"])] =
        Except.error "err") ∧
    ((fun _ => Except.ok false : String → Except String Bool) "Actor.a1" =
        Except.ok false ∧
      JB.renderLinks [⟨"Actor.a1", "Actor", "", [], []⟩]
        (fun _ => Except.ok false) [("Actor", ["Actor.a1"])] =
        JB.renderLinks [⟨"Actor.a1", "Actor", "", [], []⟩]
          (fun _ => Except.ok false) [("Actor", [])]) := by
  refine ⟨⟨by decide, by decide⟩, ⟨rfl, ?_⟩, ⟨rfl, ?_⟩⟩
  · exact (render_permission_behavior [⟨"Actor.a1", "Actor", "", [], []⟩]
      (fun _ => Except.error "err") "Actor" "Actor.a1" [] [] "err"
      ⟨"Actor.a1", "Actor", "", [], []⟩ (by decide) (by decide)).1 rfl
  · exact (render_permission_behavior [⟨"Actor.a1", "Actor", "", [], []⟩]
      (fun _ => Except.ok false) "Actor" "Actor.a1" [] [] "unused"
      ⟨"Actor.a1", "Actor", "", [], []⟩ (by decide) (by decide)).2 rfl
